import Mathlib

/-!
# Auction simulator: embedding of the concurrent execution engine

A shallow embedding of the Go packages `internal/types`, `internal/bidder`,
`internal/auction` and `cmd/simulator`.

Modelling conventions
* A finite `float64` value is the rational number it denotes.  Every
  floating-point operation of the source is the exact operation followed by
  rounding to `float64` (IEEE 754 binary64, round to nearest, ties to even);
  comparisons of finite floats are exact in Go as well.  NaN and the
  infinities, and with them results that overflow the finite range, are
  outside the model (a bid amount is a real number).
* An instant (`time.Time`) is an integer count of nanoseconds; a
  `time.Duration` is an integer count of nanoseconds.
* A pointer into a slice is the index of the element together with the element.
* Goroutines are modelled by their outcome under an explicit environment: the
  environment fixes scheduling delays, the instants at which channel
  operations can complete, the choice the runtime makes when several cases of
  a `select` are ready, the values drawn from the random source, and the
  order in which concurrent tasks reach a shared collection point.
-/

set_option linter.unusedVariables false

namespace AuctionSim

/-! ## Time and contexts (Go standard library) -/

/-- An instant, in nanoseconds. -/
abbrev Time := Int

/-- A `time.Duration`, in nanoseconds. -/
abbrev Duration := Int

/-- The largest `time.Duration` (`math.MaxInt64`). -/
def maxDuration : Duration := 9223372036854775807

/-- The smallest `time.Duration` (`math.MinInt64`). -/
def minDuration : Duration := -9223372036854775808

/-- Go `t.Sub(u)`: the difference `t - u`, saturated to the range of
`time.Duration`. -/
def timeSub (t u : Time) : Duration :=
  if t - u > maxDuration then maxDuration
  else if t - u < minDuration then minDuration
  else t - u

/-- Go `time.Millisecond` in nanoseconds. -/
def Millisecond : Duration := 1000000

/-- Go `error` values that occur in the program. -/
inductive GoError where
  /-- The value `context.Canceled`. -/
  | Canceled
  /-- The value `context.DeadlineExceeded`. -/
  | DeadlineExceeded
  /-- Any other error, given by its message. -/
  | other (msg : String)
  /-- The value `fmt.Errorf(msg + ": %w", inner)`. -/
  | wrapped (msg : String) (inner : GoError)
  deriving DecidableEq, Repr

/-- Go `err.Error()`. -/
def GoError.Error : GoError → String
  | .Canceled => "context canceled"
  | .DeadlineExceeded => "context deadline exceeded"
  | .other msg => msg
  | .wrapped msg inner => msg ++ ": " ++ inner.Error

/-- A `context.Context`, described by the instant at which its `Done` channel
is closed (`none`: never) and the error it reports from then on. -/
structure Context where
  doneAt : Option Time
  cause : GoError
  deriving DecidableEq, Repr

/-- Go `context.Background()`: never done. -/
def Background : Context := { doneAt := none, cause := GoError.Canceled }

/-- Go `ctx.Err()` read at instant `now`: non-nil from the instant the context
is done. -/
def Context.Err (ctx : Context) (now : Time) : Option GoError :=
  match ctx.doneAt with
  | some d => if d ≤ now then some ctx.cause else none
  | none => none

/-- Go `context.WithTimeout(parent, timeout)` called at instant `now`: the
child is done at the deadline `now + timeout` with `DeadlineExceeded`, or when
the parent is done if that is not later.  A deadline that is not in the future
gives a context that is done from its creation. -/
def WithTimeout (parent : Context) (now : Time) (timeout : Duration) : Context :=
  match parent.doneAt with
  | some d =>
    if d ≤ now + timeout then parent
    else { doneAt := some (now + timeout), cause := GoError.DeadlineExceeded }
  | none => { doneAt := some (now + timeout), cause := GoError.DeadlineExceeded }

/-- Go `context.WithCancel(parent)` whose cancel function runs at instant
`cancelAt` (`none`: not before the observed computation ends). -/
def WithCancel (parent : Context) (cancelAt : Option Time) : Context :=
  match parent.doneAt, cancelAt with
  | some d, some c => if d ≤ c then parent else { doneAt := some c, cause := GoError.Canceled }
  | some _, none => parent
  | none, some c => { doneAt := some c, cause := GoError.Canceled }
  | none, none => { doneAt := none, cause := GoError.Canceled }

/-- A Go `select` with two cases, entered at instant `now`, whose second case
is certain to become ready: case one can complete from instant `a` on
(`none`: never) and case two from instant `tb` on.  The case that is ready
first runs; when both are ready at the same instant the runtime chooses, and
`pick` is its choice (`true`: case one).  The result is the case taken
(`true`: case one) and the instant at which it is taken. -/
def selectTimed (now : Time) (a : Option Time) (tb : Time) (pick : Bool) : Bool × Time :=
  match a with
  | none => (false, max now tb)
  | some ta =>
    if max now ta < max now tb then (true, max now ta)
    else if max now tb < max now ta then (false, max now tb)
    else (pick, max now ta)

/-- A Go `select` with two cases, entered at instant `now`: case one can
complete from instant `a` on and case two from instant `b` on (`none`: never).
The result is `none` when neither case ever becomes ready: the goroutine
blocks forever. -/
def select2 (now : Time) (a b : Option Time) (pick : Bool) : Option (Bool × Time) :=
  match b with
  | some tb => some (selectTimed now a tb pick)
  | none =>
    match a with
    | some ta => some (true, max now ta)
    | none => none

/-- Conversion of an integer to `int64`: two's complement wrap-around. -/
def wrapInt64 (x : Int) : Int := (x + 9223372036854775808) % 18446744073709551616 - 9223372036854775808

/-- Go `math.Round`: the nearest integer, halves rounded away from zero. -/
def mathRound (x : ℚ) : ℚ :=
  if 0 ≤ x then ((Int.floor (x + 1 / 2) : Int) : ℚ) else ((Int.ceil (x - 1 / 2) : Int) : ℚ)

/-! ## `float64` arithmetic (IEEE 754 binary64) -/

/-- The integer nearest to `y`, ties to the even one. -/
def roundHalfEven (y : ℚ) : Int :=
  if y - (Int.floor y : ℚ) < 1 / 2 then Int.floor y
  else if 1 / 2 < y - (Int.floor y : ℚ) then Int.floor y + 1
  else if Int.floor y % 2 = 0 then Int.floor y
  else Int.floor y + 1

/-- The binary exponent that the `float64` format uses at `x`: the integer
part of the logarithm of `|x|` to the base 2, and the exponent -1022 of the
smallest normal number for zero and for the subnormal numbers. -/
def f64Exponent (x : ℚ) : Int := if x = 0 then -1022 else max (Int.log 2 |x|) (-1022)

/-- The spacing of the `float64` values at `x`: a significand of 53 bits. -/
def f64Ulp (x : ℚ) : ℚ := (2 : ℚ) ^ (f64Exponent x - 52)

/-- Rounding of an exact result to `float64`: the nearest whole multiple of
the spacing, ties to the even significand. -/
def f64 (x : ℚ) : ℚ := (roundHalfEven (x / f64Ulp x) : ℚ) * f64Ulp x

/-- The finite `float64` values: a significand below 2^53 in magnitude and an
exponent between -1074 and 971. -/
def IsFloat64 (x : ℚ) : Prop :=
  ∃ n j : Int, |n| < 2 ^ 53 ∧ -1074 ≤ j ∧ j ≤ 971 ∧ x = (n : ℚ) * (2 : ℚ) ^ j

/-- Go `a + b` on `float64`. -/
def f64Add (a b : ℚ) : ℚ := f64 (a + b)

/-- Go `a - b` on `float64`. -/
def f64Sub (a b : ℚ) : ℚ := f64 (a - b)

/-- Go `a * b` on `float64`. -/
def f64Mul (a b : ℚ) : ℚ := f64 (a * b)

/-- Go `a / b` on `float64`, for a divisor that is not zero. -/
def f64Div (a b : ℚ) : ℚ := f64 (a / b)

/-- The number `x` rounded to two decimal places, in the words of the
specification: the whole number of hundredths nearest to `x`, halves away
from zero. -/
def roundTwoDecimals (x : ℚ) : ℚ := mathRound (x * 100) / 100

/-! ## Package `types` -/

/-- Go `types.BidRequest`. -/
structure BidRequest where
  AuctionID : String
  Attributes : List ℚ
  Timeout : Duration
  Timestamp : Time
  deriving DecidableEq, Repr

/-- Go `types.BidResponse`. -/
structure BidResponse where
  BidderID : String
  AuctionID : String
  Amount : ℚ
  Timestamp : Time
  deriving DecidableEq, Repr

/-- Go `types.Attribute`. -/
structure Attribute where
  ID : Int
  Value : ℚ
  deriving DecidableEq, Repr

/-- Go `types.Bid`. -/
structure Bid where
  BidderID : String
  Amount : ℚ
  Timestamp : Time
  deriving DecidableEq, Repr

/-- A `*types.Bid` that points into a ledger: the position of the element and
the element it points to. -/
structure BidPtr where
  index : Nat
  val : Bid
  deriving DecidableEq, Repr

/-- Go `types.AuctionResult`. -/
structure AuctionResult where
  AuctionID : String
  Winner : Option BidPtr
  TotalBids : Int
  Duration : Duration
  Error : Option GoError
  StartTime : Time
  EndTime : Time
  deriving DecidableEq, Repr

/-! ## Package `auction`: the auction and its processor -/

/-- Go `auction.Auction`. -/
structure Auction where
  ID : String
  Attributes : List Attribute
  StartTime : Time
  EndTime : Time
  Timeout : Duration
  Winner : Option BidPtr
  Bids : List Bid
  IsComplete : Bool
  deriving DecidableEq, Repr

/-- Go `auction.Processor`. -/
structure Processor where
  auction : Auction
  deriving DecidableEq, Repr

/-- Go `NewProcessor`. -/
def NewProcessor (auction : Auction) : Processor := { auction := auction }

/-- The loop of `determineWinner` (`for i := 1; i < len(Bids); i++`): `winner`
is the current pointer, `i` the loop index and the list the bids from position
`i` on.  A bid replaces the winner only when its amount is strictly greater. -/
def determineWinnerLoop (winner : BidPtr) (i : Nat) : List Bid → BidPtr
  | [] => winner
  | b :: rest =>
    if b.Amount > winner.val.Amount then determineWinnerLoop { index := i, val := b } (i + 1) rest
    else determineWinnerLoop winner (i + 1) rest

/-- Go `Processor.determineWinner`: `nil` on an empty ledger, otherwise the
result of the scan started at `&Bids[0]`. -/
def Processor.determineWinner (p : Processor) : Option BidPtr :=
  match p.auction.Bids with
  | [] => none
  | b :: rest => some (determineWinnerLoop { index := 0, val := b } 1 rest)

/-- Go `Processor.AddBid`: `Bids = append(Bids, bid)`. -/
def Processor.AddBid (p : Processor) (bid : Bid) : Processor :=
  { p with auction := { p.auction with Bids := p.auction.Bids ++ [bid] } }

/-! ## Package `config` -/

/-- Go `config.ResourceLimits`. -/
structure ResourceLimits where
  MaxVCPUs : Int
  MaxMemoryMB : Int
  MaxConcurrentBidders : Int
  deriving DecidableEq, Repr

/-- Go `config.Config`. -/
structure Config where
  TotalAuctions : Int
  TotalBidders : Int
  AttributesPerAuction : Int
  AuctionTimeout : Duration
  ResourceLimits : ResourceLimits
  deriving DecidableEq, Repr

/-! ## Package `bidder` -/

/-- Go `bidder.Bidder`. -/
structure Bidder where
  ID : String
  Name : String
  BidChance : ℚ
  BaseBid : ℚ
  BidRange : ℚ
  SpeedMS : Int
  Attributes : List Int
  deriving DecidableEq, Repr

/-- Go `bidder.Simulator`. -/
structure Simulator where
  bidder : Bidder
  deriving DecidableEq, Repr

/-- Go `bidder.NewSimulator`. -/
def NewSimulator (bidder : Bidder) : Simulator := { bidder := bidder }

/-- What one call of `EvaluateBid` takes from its surroundings. -/
structure EvalEnv where
  /-- The choice of the runtime when `ctx.Done()` and the latency timer are
  ready at the same instant (`true`: the `ctx.Done()` case). -/
  pick : Bool
  /-- The value of the first `rand.Float64()`, the bid decision. -/
  decision : ℚ
  /-- The value of the second `rand.Float64()`, the amount variation. -/
  variation : ℚ
  /-- Whether the compiler fuses the product of `variation` and the sum
  `baseAmount+variation` into one multiply-add with a single rounding, as the
  language allows and the arm64 compiler does; the amd64 compiler rounds the
  product and the sum separately. -/
  fused : Bool := false
  deriving DecidableEq, Repr

/-- The two results of `EvaluateBid` and its observable effects: the instant
at which the call returns and the number of values drawn from the random
source. -/
structure EvalOutcome where
  response : Option BidResponse
  err : Option GoError
  finish : Time
  draws : Nat
  deriving DecidableEq, Repr

/-- The local variable `variation` of `EvaluateBid`:
`(rand.Float64() - 0.5) * s.bidder.BidRange`. -/
def Simulator.variation (s : Simulator) (env : EvalEnv) : ℚ :=
  f64Mul (f64Sub env.variation (1 / 2)) s.bidder.BidRange

/-- The local variable `bidAmount` of `EvaluateBid` before it is rounded to
hundredths: `math.Max(1.0, baseAmount+variation)`. -/
def Simulator.bidAmount (s : Simulator) (env : EvalEnv) : ℚ :=
  max 1
    (if env.fused then
      f64 (s.bidder.BaseBid + f64Sub env.variation (1 / 2) * s.bidder.BidRange)
    else f64Add s.bidder.BaseBid (s.variation env))

/-- Go `Simulator.EvaluateBid`, called at instant `now`. -/
def Simulator.EvaluateBid (s : Simulator) (ctx : Context) (request : BidRequest) (now : Time)
    (env : EvalEnv) : EvalOutcome :=
  match ctx.Err now with
  | some e => { response := none, err := some e, finish := now, draws := 0 }
  | none =>
    match selectTimed now ctx.doneAt (now + wrapInt64 (s.bidder.SpeedMS * Millisecond)) env.pick with
    | (true, t) => { response := none, err := ctx.Err t, finish := t, draws := 0 }
    | (false, t) =>
      if env.decision > s.bidder.BidChance then
        { response := none, err := none, finish := t, draws := 1 }
      else
        let bidAmount := s.bidAmount env
        let bidAmount := f64Div (mathRound (f64Mul bidAmount 100)) 100
        { response := some { BidderID := s.bidder.ID, AuctionID := request.AuctionID,
                             Amount := bidAmount, Timestamp := t },
          err := none, finish := t, draws := 2 }

/-- Go `bidder.Manager`. -/
structure bidder.Manager where
  config : Config
  bidders : List Bidder
  deriving DecidableEq, Repr

/-- Go `bidder.Manager.GetBidders`. -/
def bidder.Manager.GetBidders (m : bidder.Manager) : List Bidder := m.bidders

/-- Go `bidder.Manager.GetBidderSimulators`. -/
def bidder.Manager.GetBidderSimulators (m : bidder.Manager) : List Simulator :=
  m.GetBidders.map NewSimulator

/-! ## Package `auction`: manager and orchestrator -/

/-- Go `auction.Manager`; the result channel and the metrics are not used by
the orchestrator. -/
structure auction.Manager where
  config : Config
  auctions : List Auction
  deriving DecidableEq, Repr

/-- Go `auction.Manager.GetAuctions`. -/
def auction.Manager.GetAuctions (m : auction.Manager) : List Auction := m.auctions

/-- Go `auction.Orchestrator`; `semaphore` is the capacity of the channel
`make(chan struct{}, MaxConcurrentBidders)`. -/
structure Orchestrator where
  config : Config
  auctionManager : auction.Manager
  bidderManager : bidder.Manager
  semaphore : Nat
  deriving DecidableEq, Repr

/-- Go `NewOrchestrator`; `make` panics on a negative capacity (`none`). -/
def NewOrchestrator (cfg : Config) (auctionMgr : auction.Manager) (bidderMgr : bidder.Manager) :
    Option Orchestrator :=
  if 0 ≤ cfg.ResourceLimits.MaxConcurrentBidders then
    some { config := cfg, auctionManager := auctionMgr, bidderManager := bidderMgr,
           semaphore := cfg.ResourceLimits.MaxConcurrentBidders.toNat }
  else none

/-- What the goroutine of one participant in `collectBids` takes from its
surroundings. -/
structure TaskEnv where
  /-- Delay between the start of `collectBids` and the instant the goroutine
  reaches its first `select`. -/
  arrive : Nat
  /-- The instant from which the send on the semaphore can complete (`none`:
  never). -/
  permitAt : Option Time
  /-- The choice of the runtime when the semaphore and `ctx.Done()` are ready
  at the same instant (`true`: the semaphore case). -/
  pickAcquire : Bool
  /-- The environment of the call of `EvaluateBid`. -/
  eval : EvalEnv
  /-- The instant from which the send on `bidCh` can complete (`none`:
  never). -/
  sendAt : Option Time
  /-- The choice of the runtime when `bidCh` and `ctx.Done()` are ready at the
  same instant (`true`: the send). -/
  pickSend : Bool
  deriving DecidableEq, Repr

/-- What the goroutine of one participant has done when it returns. -/
structure TaskOutcome where
  /-- The bid it has sent on `bidCh`. -/
  bid : Option Bid
  /-- Whether it has taken a permit (released by the deferred receive). -/
  acquired : Bool
  /-- Whether it has called `EvaluateBid`. -/
  evaluated : Bool
  /-- The instant at which it returns. -/
  finish : Time
  deriving DecidableEq, Repr

/-- The goroutine `func(sim *bidder.Simulator)` of `collectBids`, started by a
collection that begins at instant `start`; `none` when it blocks forever. -/
def bidTask (sim : Simulator) (ctx : Context) (bidRequest : BidRequest) (start : Time)
    (env : TaskEnv) : Option TaskOutcome :=
  match select2 (start + env.arrive) env.permitAt ctx.doneAt env.pickAcquire with
  | none => none
  | some (false, t) => some { bid := none, acquired := false, evaluated := false, finish := t }
  | some (true, t) =>
    let out := sim.EvaluateBid ctx bidRequest t env.eval
    match out.err, out.response with
    | none, some bidResponse =>
      let bid : Bid := { BidderID := bidResponse.BidderID, Amount := bidResponse.Amount,
                         Timestamp := bidResponse.Timestamp }
      match select2 out.finish env.sendAt ctx.doneAt env.pickSend with
      | none => none
      | some (true, u) => some { bid := some bid, acquired := true, evaluated := true, finish := u }
      | some (false, u) => some { bid := none, acquired := true, evaluated := true, finish := u }
    | _, _ => some { bid := none, acquired := true, evaluated := true, finish := out.finish }

/-- What one run of `collectBids` takes from its surroundings: the
environment of the goroutine of each participant (by position in the list of
simulators) and the order in which the goroutines send on `bidCh`, read
through `arrivalOrder`. -/
structure CollectEnv where
  task : Nat → TaskEnv
  order : List Nat

/-- The goroutines of `collectBids` for the simulators from position `i` on:
their outcomes, or `none` when one of them blocks forever. -/
def runTasks (ctx : Context) (bidRequest : BidRequest) (start : Time) (task : Nat → TaskEnv)
    (i : Nat) : List Simulator → Option (List TaskOutcome)
  | [] => some []
  | sim :: rest =>
    match bidTask sim ctx bidRequest start (task i) with
    | none => none
    | some out =>
      match runTasks ctx bidRequest start task (i + 1) rest with
      | none => none
      | some outs => some (out :: outs)

/-- The order in which the sends of `n` goroutines reach `bidCh`, as the
environment gives it by `order`: the goroutines that `order` mentions, each
once, followed in order of position by those it does not mention.  Every
goroutine occurs exactly once, whatever `order` is: a channel hands every value
sent to the receiving loop exactly once, and a goroutine sends at most once. -/
def arrivalOrder (n : Nat) (order : List Nat) : List Nat :=
  (order.dedup.filter fun i => decide (i < n)) ++
    (List.range n).filter fun i => decide (i ∉ order)

/-- The bids that reach `bidCh`, in the order in which they are sent. -/
def delivered (outs : List TaskOutcome) (order : List Nat) : List Bid :=
  (arrivalOrder outs.length order).filterMap fun i => (outs.get? i).bind fun out => out.bid

/-- Go `Orchestrator.collectBids`, started at instant `now`: the processor
after the loop `for bid := range bidCh` and the instant at which the loop
ends, or `none` when the call never returns. -/
def Orchestrator.collectBids (o : Orchestrator) (ctx : Context) (processor : Processor)
    (auct : Auction) (now : Time) (env : CollectEnv) : Option (Processor × Time) :=
  let attributeValues := auct.Attributes.map fun attr => attr.Value
  let bidRequest : BidRequest :=
    { AuctionID := auct.ID, Attributes := attributeValues, Timeout := auct.Timeout,
      Timestamp := now }
  let simulators := o.bidderManager.GetBidderSimulators
  match runTasks ctx bidRequest now env.task 0 simulators with
  | none => none
  | some outs =>
    some ((delivered outs env.order).foldl Processor.AddBid processor,
          outs.foldl (fun t out => max t out.finish) now)

/-- Go `Orchestrator.runSingleAuction`, called at instant `now`: the result
and the auction as the call leaves it, or `none` when the call never
returns. -/
def Orchestrator.runSingleAuction (o : Orchestrator) (ctx : Context) (auct : Auction)
    (auctionIndex : Nat) (now : Time) (env : CollectEnv) : Option (AuctionResult × Auction) :=
  let processor := NewProcessor auct
  let auctionCtx := WithTimeout ctx now auct.Timeout
  let result : AuctionResult :=
    { AuctionID := auct.ID, Winner := none, TotalBids := 0, Duration := 0, Error := none,
      StartTime := now, EndTime := 0 }
  match o.collectBids auctionCtx processor auct now env with
  | none => none
  | some (processor, endNow) =>
    let auct := processor.auction
    let (auct, result) :=
      if auct.Bids.length > 0 then
        let winner := processor.determineWinner
        ({ auct with Winner := winner }, { result with Winner := winner })
      else (auct, result)
    let result := { result with TotalBids := (auct.Bids.length : Int) }
    let result := { result with EndTime := endNow }
    let result := { result with Duration := timeSub result.EndTime result.StartTime }
    let auct := { auct with IsComplete := true }
    some (result, auct)

/-- The critical section of a runner goroutine of `RunAllAuctions`:
`results[idx] = result`, and the first failure to arrive is kept. -/
def storeResult (st : List (Option AuctionResult) × Option GoError) (idx : Nat)
    (result : AuctionResult) : List (Option AuctionResult) × Option GoError :=
  (st.1.set idx (some result),
   if result.Error ≠ none ∧ st.2 = none then result.Error else st.2)

/-- The body of `RunAllAuctions` for an arbitrary runner `run`: one goroutine
per auction, each storing its result in its own slot; `completion` is the
order in which the goroutines enter the critical section.  The result is
`none` when a runner never returns (`wg.Wait()` blocks). -/
def runAll (run : Nat → Auction → Option AuctionResult) (auctions : List Auction)
    (completion : List Nat) : Option (List (Option AuctionResult) × Option GoError) :=
  completion.foldl
    (fun st idx =>
      match st, auctions.get? idx with
      | none, _ => none
      | some st, none => some st
      | some st, some auct =>
        match run idx auct with
        | none => none
        | some result => some (storeResult st idx result))
    (some (List.replicate auctions.length none, none))

/-- The failure carried by the result in slot `idx` of a result sequence
(`results[idx].Error`), `none` when there is none. -/
def failureOf (results : List (Option AuctionResult)) (idx : Nat) : Option GoError :=
  match results.get? idx with
  | some (some r) => r.Error
  | _ => none

/-- What one run of `RunAllAuctions` takes from its surroundings: for each
auction the delay until its goroutine starts and the environment of its
collection, and the order in which the goroutines finish. -/
structure RunEnv where
  launch : Nat → Nat
  collect : Nat → CollectEnv
  completion : List Nat

/-- Go `Orchestrator.RunAllAuctions`, called at instant `now`. -/
def Orchestrator.RunAllAuctions (o : Orchestrator) (ctx : Context) (now : Time) (env : RunEnv) :
    Option (List (Option AuctionResult) × Option GoError) :=
  let auctions := o.auctionManager.GetAuctions
  let batchCtx := WithCancel ctx none
  runAll
    (fun idx auct =>
      (o.runSingleAuction batchCtx auct idx (now + env.launch idx) (env.collect idx)).map
        fun r => r.1)
    auctions env.completion

/-! ## The admission gate as a transition system

The permit protocol of the goroutines of `collectBids`, over all auctions of a
run: they share the one semaphore of the orchestrator. -/

/-- Where the goroutine of one participant stands. -/
inductive TaskPc where
  /-- At the first `select`, no permit held. -/
  | acquiring
  /-- Inside `EvaluateBid`, permit held. -/
  | evaluating
  /-- At the `select` that sends the bid, permit held. -/
  | sending
  /-- Returned; the deferred receive has given the permit back. -/
  | finished
  deriving DecidableEq, Repr

/-- The goroutine of one participant: the auction it bids in and where it
stands. -/
structure GateTask where
  auction : Nat
  pc : TaskPc
  deriving DecidableEq, Repr

/-- The state of the gate: the number of elements in the channel
`o.semaphore`, the goroutines, and the auctions whose context is done. -/
structure GateState where
  permits : Nat
  tasks : List GateTask
  expired : List Nat
  deriving DecidableEq, Repr

/-- The atomic steps of the protocol. -/
inductive GateAction where
  /-- The context of an auction becomes done. -/
  | expire (auction : Nat)
  /-- Task `i` takes `case o.semaphore <- struct{}{}`. -/
  | acquire (i : Nat)
  /-- Task `i` takes `case <-ctx.Done(): return` of the first `select`. -/
  | abandon (i : Nat)
  /-- `EvaluateBid` of task `i` returns an error or no response; the task
  returns and its deferred function receives from the semaphore. -/
  | evalNoBid (i : Nat)
  /-- `EvaluateBid` of task `i` returns a response. -/
  | evalBid (i : Nat)
  /-- Task `i` leaves the last `select`, returns, and its deferred function
  receives from the semaphore. -/
  | sendDone (i : Nat)
  deriving DecidableEq, Repr

/-- Task `i` moves to `pc`. -/
def GateState.setPc (s : GateState) (i : Nat) (pc : TaskPc) : List GateTask :=
  s.tasks.modify (fun t => { t with pc := pc }) i

/-- One step of the gate with a semaphore of capacity `cap`; `none` when the
step is not enabled.  A send on the semaphore is enabled while the channel
holds fewer than `cap` elements, a receive while it holds at least one. -/
def gateStep (cap : Nat) (s : GateState) : GateAction → Option GateState
  | .expire a => some { s with expired := a :: s.expired }
  | .acquire i =>
    match s.tasks.get? i with
    | some t =>
      if t.pc = TaskPc.acquiring ∧ s.permits < cap then
        some { s with permits := s.permits + 1, tasks := s.setPc i TaskPc.evaluating }
      else none
    | none => none
  | .abandon i =>
    match s.tasks.get? i with
    | some t =>
      if t.pc = TaskPc.acquiring ∧ t.auction ∈ s.expired then
        some { s with tasks := s.setPc i TaskPc.finished }
      else none
    | none => none
  | .evalNoBid i =>
    match s.tasks.get? i with
    | some t =>
      if t.pc = TaskPc.evaluating ∧ 0 < s.permits then
        some { s with permits := s.permits - 1, tasks := s.setPc i TaskPc.finished }
      else none
    | none => none
  | .evalBid i =>
    match s.tasks.get? i with
    | some t =>
      if t.pc = TaskPc.evaluating then some { s with tasks := s.setPc i TaskPc.sending }
      else none
    | none => none
  | .sendDone i =>
    match s.tasks.get? i with
    | some t =>
      if t.pc = TaskPc.sending ∧ 0 < s.permits then
        some { s with permits := s.permits - 1, tasks := s.setPc i TaskPc.finished }
      else none
    | none => none

/-- A sequence of steps. -/
def gateRun (cap : Nat) (s : GateState) : List GateAction → Option GateState
  | [] => some s
  | a :: rest =>
    match gateStep cap s a with
    | some s1 => gateRun cap s1 rest
    | none => none

/-- The start of a run: an empty semaphore, no context done, and one task per
participant and auction (`auctions` gives the auction of each task), each at
its first `select`. -/
def gateInit (auctions : List Nat) : GateState :=
  { permits := 0, tasks := auctions.map fun a => { auction := a, pc := TaskPc.acquiring },
    expired := [] }

/-- The number of calls of `EvaluateBid` in progress. -/
def GateState.evaluating (s : GateState) : Nat :=
  s.tasks.countP fun t => t.pc = TaskPc.evaluating

/-- The number of tasks that hold a permit. -/
def GateState.holding (s : GateState) : Nat :=
  s.tasks.countP fun t => t.pc = TaskPc.evaluating ∨ t.pc = TaskPc.sending

/-! ## Package `main` (`cmd/simulator`) -/

/-- The fields of `metrics.SimulationMetrics` that `runSimulation` computes
from the auction results. -/
structure SimulationMetrics where
  TotalAuctions : Int
  TotalBidders : Int
  SuccessfulAuctions : Int
  FailedAuctions : Int
  TotalBidsReceived : Int
  AverageBidsPerAuction : ℚ
  deriving DecidableEq, Repr

/-- One line of the table printed by `printAuctionDetails`: the identity, the
bid count, the winner (identity and amount, `none` for the text `None`) and
the status column. -/
structure DetailRow where
  AuctionID : String
  Bids : Int
  Winner : Option (String × ℚ)
  Status : String
  deriving DecidableEq, Repr

/-- Go `printAuctionDetails`: the lines of the table. -/
def printAuctionDetails (results : List AuctionResult) : List DetailRow :=
  results.map fun result =>
    { AuctionID := result.AuctionID,
      Bids := result.TotalBids,
      Winner := result.Winner.map fun w => (w.val.BidderID, w.val.Amount),
      Status :=
        match result.Error with
        | some e => "Error: " ++ e.Error
        | none => "Success" }

/-- Go `runConcurrentAuctions`, from the return of
`orchestrator.RunAllAuctions(ctx)` on: `ret` is the pair that call returned
(the results with every slot filled, and the error). -/
def runConcurrentAuctions (ret : List AuctionResult × Option GoError) :
    Option (List AuctionResult) × Option GoError :=
  match ret.2 with
  | some err => (none, some (GoError.wrapped "error running auctions" err))
  | none => (some ret.1, none)

/-- What `runSimulation` hands to the reporting collaborator: the metrics
given to `ReportSummary` and `SaveMetrics`, the results given to
`SaveAuctionResults`, and the table of `printAuctionDetails`. -/
structure Report where
  metrics : SimulationMetrics
  saved : List AuctionResult
  details : List DetailRow
  deriving DecidableEq, Repr

/-- Go `runSimulation`, from the call of `runConcurrentAuctions` on (the
initialisation before it cannot fail): `ret` is the pair returned by
`orchestrator.RunAllAuctions(ctx)`.  The result is the error returned to
`main`, which then ends the process with `log.Fatalf`, or what was
reported. -/
def runSimulation (cfg : Config) (ret : List AuctionResult × Option GoError) :
    Except GoError Report :=
  match runConcurrentAuctions ret with
  | (_, some err) => Except.error (GoError.wrapped "auction execution failed" err)
  | (returned, none) =>
    -- a nil slice is an empty slice
    let auctionResults := returned.getD []
    let successfulAuctions : Int := ((auctionResults.filter fun r => r.Error = none).length : Int)
    let totalBidsReceived : Int := (auctionResults.map fun r => r.TotalBids).sum
    Except.ok
      { metrics :=
          { TotalAuctions := cfg.TotalAuctions, TotalBidders := cfg.TotalBidders,
            SuccessfulAuctions := successfulAuctions,
            FailedAuctions := (auctionResults.length : Int) - successfulAuctions,
            TotalBidsReceived := totalBidsReceived,
            AverageBidsPerAuction :=
              if auctionResults.length > 0 then
                f64Div (f64 (totalBidsReceived : ℚ)) (f64 (auctionResults.length : ℚ))
              else 0 },
        saved := auctionResults,
        details := printAuctionDetails auctionResults }

/-- The slice `[]*types.AuctionResult` read through its pointers, as the loops
of `runSimulation` and `printAuctionDetails` read it; `none` when a slot is
nil (the loop dereferences a nil pointer and the process ends in a panic). -/
def derefAll : List (Option AuctionResult) → Option (List AuctionResult)
  | [] => some []
  | none :: _ => none
  | some r :: rest =>
    match derefAll rest with
    | some rs => some (r :: rs)
    | none => none

/-- Go `runSimulation` with the orchestrator `o` that it has built, from the
call of `runConcurrentAuctions` on: the call of
`orchestrator.RunAllAuctions(ctx)` under `context.Background()` at instant
`now`, followed by what `runSimulation` does with its return.  The result is
`none` when `RunAllAuctions` never returns or the process panics. -/
def runSimulationWith (cfg : Config) (o : Orchestrator) (now : Time) (env : RunEnv) :
    Option (Except GoError Report) :=
  match o.RunAllAuctions Background now env with
  | none => none
  | some (results, some err) =>
    -- the results are dropped before any slot is read
    some (runSimulation cfg (results.filterMap id, some err))
  | some (results, none) =>
    match derefAll results with
    | none => none
    | some auctionResults => some (runSimulation cfg (auctionResults, none))

/-! ## Package `utils` -/

/-- Go `rand.Int63n(n)`: it panics (`none`) when `n <= 0`; otherwise it
returns the remainder modulo `n` of the non-negative 63-bit draw `v` that it
accepts, a value in `[0, n)`. -/
def Int63n (n : Int) (v : Int) : Option Int :=
  if n ≤ 0 then none else some (v % n)

/-- Go `utils.RandomFloat`, with `draw` the value of `rand.Float64()`; `fused`
says whether the product and the sum are one multiply-add. -/
def RandomFloat (min max : ℚ) (draw : ℚ) (fused : Bool) : ℚ :=
  if fused then f64 (min + draw * f64Sub max min)
  else f64Add min (f64Mul draw (f64Sub max min))

/-- Go `utils.RandomInt`, with `v` the draw accepted by `rand.Intn`; `none`
when `rand.Intn` panics. -/
def RandomInt (min max : Int) (v : Int) : Option Int :=
  (Int63n (max - min + 1) v).map fun r => min + r

/-- Go `utils.RandomDuration`, with `v` the draw accepted by `rand.Int63n`:
`rand.Int63n(int64(max-min) + int64(min))`, converted to a duration; `none`
when `rand.Int63n` panics. -/
def RandomDuration (min max : Duration) (v : Int) : Option Duration :=
  Int63n (wrapInt64 (wrapInt64 (max - min) + min)) v

/-- Go `utils.RandomChance`, with `draw` the value of `rand.Float64()`. -/
def RandomChance (probability : ℚ) (draw : ℚ) : Bool :=
  decide (draw < probability)

/-! ## Package `main`: validation of the environment -/

/-- Go `validateEnvironment`, with `version` the value of `runtime.Version()`;
the comparison of Go strings is lexicographic.  The result is the error
returned, `none` for nil. -/
def validateEnvironment (version : String) (cfg : Config) : Option GoError :=
  if version < "go1.25" then
    some (GoError.other ("requires Go 1.25 or later, current: " ++ version))
  else if cfg.ResourceLimits.MaxVCPUs < 1 then
    some (GoError.other ("invalid CPU limit: " ++ toString cfg.ResourceLimits.MaxVCPUs))
  else if cfg.ResourceLimits.MaxMemoryMB < 100 then
    some (GoError.other
      ("insufficient memory limit: " ++ toString cfg.ResourceLimits.MaxMemoryMB ++ " MB"))
  else none

/-! ## Sample data -/

/-- A bid of the participant `who` with amount `amount`. -/
def sampleBid (who : String) (amount : ℚ) : Bid :=
  { BidderID := who, Amount := amount, Timestamp := 0 }

/-- An auction as `createAuction` makes it, with the given timeout and
ledger. -/
def sampleAuction (timeout : Duration) (bids : List Bid) : Auction :=
  { ID := "auction-1", Attributes := [], StartTime := 0, EndTime := 0, Timeout := timeout,
    Winner := none, Bids := bids, IsComplete := false }

/-- The ledger of the scenario with amounts 10.00, 25.50 and 25.50. -/
def sampleLedger : List Bid :=
  [sampleBid "bidder-1" 10, sampleBid "bidder-2" (51 / 2), sampleBid "bidder-3" (51 / 2)]

/-- A participant that always bids `base`, after 5 ms. -/
def sampleBidder (id : String) (chance base : ℚ) : Bidder :=
  { ID := id, Name := id, BidChance := chance, BaseBid := base, BidRange := 0, SpeedMS := 5,
    Attributes := [] }

/-- The configuration of the samples: three participants, two permits. -/
def sampleConfig : Config :=
  { TotalAuctions := 1, TotalBidders := 3, AttributesPerAuction := 0,
    AuctionTimeout := 2000000000,
    ResourceLimits := { MaxVCPUs := 2, MaxMemoryMB := 1024, MaxConcurrentBidders := 2 } }

/-- An orchestrator over the auctions `auctions` and three participants that
bid with probability `chance` the amounts 10.00, 25.50 and 25.50. -/
def sampleOrchestrator (chance : ℚ) (auctions : List Auction) : Orchestrator :=
  { config := sampleConfig,
    auctionManager := { config := sampleConfig, auctions := auctions },
    bidderManager :=
      { config := sampleConfig,
        bidders := [sampleBidder "bidder-1" chance 10, sampleBidder "bidder-2" chance (51 / 2),
                    sampleBidder "bidder-3" chance (51 / 2)] },
    semaphore := 2 }

/-- A goroutine that finds a permit and room in `bidCh` at once, and draws
1/2 twice. -/
def sampleTaskEnv : TaskEnv :=
  { arrive := 0, permitAt := some 0, pickAcquire := true,
    eval := { pick := false, decision := 1 / 2, variation := 1 / 2 },
    sendAt := some 0, pickSend := true }

/-- A collection in which the goroutines send in the order of the
participants. -/
def sampleCollectEnv : CollectEnv :=
  { task := fun _ => sampleTaskEnv, order := [0, 1, 2] }

/-- A runner that fails with `err` on the auctions at the positions in
`failing` and reports an empty success on the others. -/
def sampleRunner (failing : List (Nat × GoError)) (idx : Nat) (auct : Auction) :
    Option AuctionResult :=
  some { AuctionID := auct.ID, Winner := none, TotalBids := 0, Duration := 0,
         Error := (failing.find? fun f => f.1 = idx).map fun f => f.2,
         StartTime := 0, EndTime := 0 }

/-- Three auctions as `createAuction` makes them. -/
def sampleAuctions : List Auction :=
  [{ sampleAuction 2000000000 [] with ID := "auction-1" },
   { sampleAuction 2000000000 [] with ID := "auction-2" },
   { sampleAuction 2000000000 [] with ID := "auction-3" }]

/-- A run in which the goroutines finish in the order 2, 0, 1. -/
def sampleRunEnv : RunEnv :=
  { launch := fun _ => 0, collect := fun _ => sampleCollectEnv, completion := [2, 0, 1] }

/-- A schedule of the gate for four tasks, three of auction 0 and one of
auction 1: two tasks take the two permits, the deadline of auction 0 fires and
a waiting task of that auction gives up, one holder sends its bid and returns,
and the task of auction 1 takes the permit that came free. -/
def sampleActions : List GateAction :=
  [GateAction.acquire 0, GateAction.acquire 1, GateAction.expire 0, GateAction.abandon 2,
   GateAction.evalBid 0, GateAction.sendDone 0, GateAction.acquire 3]

/-- What an orchestrator returns when the second of two auctions has failed
on its deadline after collecting two bids: both results, and the failure. -/
def sampleFailedReturn : List AuctionResult × Option GoError :=
  ([{ AuctionID := "auction-1", Winner := none, TotalBids := 0, Duration := 5000000,
      Error := none, StartTime := 0, EndTime := 5000000 },
    { AuctionID := "auction-2", Winner := none, TotalBids := 2, Duration := 2000000000,
      Error := some GoError.DeadlineExceeded, StartTime := 0, EndTime := 2000000000 }],
   some GoError.DeadlineExceeded)

/-- A request of the auction `auction-1`. -/
def sampleRequest : BidRequest :=
  { AuctionID := "auction-1", Attributes := [], Timeout := 2000000000, Timestamp := 0 }

/-- A participant with bid-probability 7/10, base-bid 25.50, bid-range 10 and
a latency of 5 ms. -/
def sampleWideBidder : Bidder :=
  { ID := "bidder-7", Name := "Bidder 7", BidChance := 7 / 10, BaseBid := 51 / 2, BidRange := 10,
    SpeedMS := 5, Attributes := [] }

/-- A context with a deadline two seconds after instant 0. -/
def sampleLiveContext : Context := WithTimeout Background 0 2000000000

/-- A context whose deadline fired at instant 0. -/
def sampleExpiredContext : Context := { doneAt := some 0, cause := GoError.DeadlineExceeded }

/-- A call of `EvaluateBid` whose decision draw is 1/2 and whose variation
draw is 1/2, so that the variation of the amount is 0. -/
def sampleEvalEnv : EvalEnv := { pick := false, decision := 1 / 2, variation := 1 / 2 }

/-- A participant as `createBidder` can make it: bid-probability 7/10,
bid-range 10, and as base-bid the `float64` value nearest to 50.025, which is
7040392854975283/2^47 = 50.02499999999999857…. -/
def sampleRoundingBidder : Bidder :=
  { ID := "bidder-9", Name := "Bidder 9", BidChance := 7 / 10,
    BaseBid := 7040392854975283 / 140737488355328, BidRange := 10, SpeedMS := 5,
    Attributes := [] }

/-- The response of the participant `sampleRoundingBidder` for the draws of
`sampleEvalEnv`: its amount is the `float64` value nearest to 50.03, which is
1760274135604265/2^45. -/
def sampleResponse : BidResponse :=
  { BidderID := "bidder-9", AuctionID := "auction-1",
    Amount := 1760274135604265 / 35184372088832, Timestamp := 5000000 }

/-! ## Rounding to `float64` -/

/-- Rounding to the nearest integer gives the integer below or the one after it. -/
theorem roundHalfEven_cases (y : ℚ) :
    roundHalfEven y = Int.floor y ∨ roundHalfEven y = Int.floor y + 1 := by
  unfold roundHalfEven
  split
  · exact Or.inl rfl
  · split
    · exact Or.inr rfl
    · split
      · exact Or.inl rfl
      · exact Or.inr rfl

/-- Rounding to the nearest integer moves a number by at most 1/2. -/
theorem roundHalfEven_error (y : ℚ) : |(roundHalfEven y : ℚ) - y| ≤ 1 / 2 := by
  have h1 := Int.floor_le y
  have h2 := Int.lt_floor_add_one y
  rw [abs_le]
  unfold roundHalfEven
  split
  · constructor <;> linarith
  · rename_i h
    split
    · push_cast
      constructor <;> linarith
    · rename_i h'
      have : y - (Int.floor y : ℚ) = 1 / 2 := le_antisymm (not_lt.1 h') (not_lt.1 h)
      split
      · constructor <;> linarith
      · push_cast
        constructor <;> linarith

/-- Rounding to the nearest integer does not cross an integer from above. -/
theorem le_roundHalfEven (y : ℚ) (n : Int) (h : (n : ℚ) ≤ y) : n ≤ roundHalfEven y := by
  have hf : n ≤ Int.floor y := Int.le_floor.2 h
  rcases roundHalfEven_cases y with hc | hc <;> omega

/-- Rounding to the nearest integer does not cross an integer from below. -/
theorem roundHalfEven_le (y : ℚ) (n : Int) (h : y ≤ (n : ℚ)) : roundHalfEven y ≤ n := by
  rcases eq_or_lt_of_le h with heq | hlt
  · have hfl : Int.floor y = n := by rw [heq]; exact Int.floor_intCast n
    have : roundHalfEven y = Int.floor y := by
      unfold roundHalfEven
      rw [if_pos]
      rw [hfl, heq]
      norm_num
    omega
  · have hf : Int.floor y < n := Int.floor_lt.2 hlt
    rcases roundHalfEven_cases y with hc | hc <;> omega

/-- An integer is not changed by rounding. -/
theorem roundHalfEven_intCast (n : Int) : roundHalfEven (n : ℚ) = n :=
  le_antisymm (roundHalfEven_le _ n le_rfl) (le_roundHalfEven _ n le_rfl)

/-- A number within less than 1/2 of an integer rounds to it. -/
theorem roundHalfEven_of_near (y : ℚ) (n : Int) (h : |y - (n : ℚ)| < 1 / 2) :
    roundHalfEven y = n := by
  have he := roundHalfEven_error y
  rw [abs_le] at he
  rw [abs_lt] at h
  have h1 : ((roundHalfEven y : Int) : ℚ) - (n : ℚ) < 1 := by linarith
  have h2 : (n : ℚ) - ((roundHalfEven y : Int) : ℚ) < 1 := by linarith
  have h3 : roundHalfEven y - n < 1 := by exact_mod_cast h1
  have h4 : n - roundHalfEven y < 1 := by exact_mod_cast h2
  omega

/-- The spacing is positive. -/
theorem f64Ulp_pos (x : ℚ) : 0 < f64Ulp x := by
  unfold f64Ulp
  positivity

/-- The exponent is at least that of the smallest normal number. -/
theorem f64Exponent_ge (x : ℚ) : -1022 ≤ f64Exponent x := by
  unfold f64Exponent
  split
  · exact le_rfl
  · exact le_max_right _ _

/-- The rounding error is at most half the spacing. -/
theorem f64_error_ulp (x : ℚ) : |f64 x - x| ≤ f64Ulp x / 2 := by
  have hq := f64Ulp_pos x
  have he := roundHalfEven_error (x / f64Ulp x)
  unfold f64
  have : (roundHalfEven (x / f64Ulp x) : ℚ) * f64Ulp x - x
      = ((roundHalfEven (x / f64Ulp x) : ℚ) - x / f64Ulp x) * f64Ulp x := by
    field_simp
  rw [this, abs_mul, abs_of_pos hq]
  calc |(roundHalfEven (x / f64Ulp x) : ℚ) - x / f64Ulp x| * f64Ulp x
      ≤ 1 / 2 * f64Ulp x := mul_le_mul_of_nonneg_right he (le_of_lt hq)
    _ = f64Ulp x / 2 := by ring

/-- The power of two of the logarithm is at most the number. -/
theorem two_zpow_log_le (r : ℚ) (hr : 0 < r) : (2 : ℚ) ^ Int.log 2 r ≤ r := by
  have := Int.zpow_log_le_self (b := 2) (by norm_num) hr
  simpa using this

/-- A number is below the next power of two above its logarithm. -/
theorem lt_two_zpow_log_succ (r : ℚ) : r < (2 : ℚ) ^ (Int.log 2 r + 1) := by
  have := Int.lt_zpow_succ_log_self (b := 2) (by norm_num) r
  simpa using this

/-- The logarithm of a number between two consecutive powers of two. -/
theorem log_eq_of_bounds (r : ℚ) (E : Int) (hlo : (2 : ℚ) ^ E ≤ r) (hhi : r < (2 : ℚ) ^ (E + 1)) :
    Int.log 2 r = E := by
  have hr : 0 < r := lt_of_lt_of_le (by positivity) hlo
  have h1 : E ≤ Int.log 2 r := by
    rw [← Int.zpow_le_iff_le_log (by norm_num) hr]
    simpa using hlo
  have h2 : Int.log 2 r < E + 1 := by
    rw [← Int.lt_zpow_iff_log_lt (by norm_num) hr]
    simpa using hhi
  omega

/-- The magnitude of a number is below the next power of two above its
exponent. -/
theorem abs_lt_two_zpow_exponent (x : ℚ) : |x| < (2 : ℚ) ^ (f64Exponent x + 1) := by
  by_cases hx : x = 0
  · rw [hx, abs_zero]
    positivity
  · have h1 := lt_two_zpow_log_succ |x|
    have h2 : (2 : ℚ) ^ (Int.log 2 |x| + 1) ≤ (2 : ℚ) ^ (f64Exponent x + 1) := by
      apply zpow_le_zpow_right₀ (by norm_num)
      have := le_max_left (Int.log 2 |x|) (-1022)
      unfold f64Exponent
      rw [if_neg hx]
      omega
    exact lt_of_lt_of_le h1 h2

/-- Either the exponent is that of the smallest normal number, or the
power of two of the exponent is at most the magnitude. -/
theorem exponent_cases (x : ℚ) :
    f64Exponent x = -1022 ∨ (-1022 < f64Exponent x ∧ (2 : ℚ) ^ f64Exponent x ≤ |x|) := by
  unfold f64Exponent
  by_cases hx : x = 0
  · left
    rw [if_pos hx]
  · rw [if_neg hx]
    rcases le_or_lt (Int.log 2 |x|) (-1022) with h | h
    · left
      exact max_eq_right h
    · right
      rw [max_eq_left (le_of_lt h)]
      exact ⟨h, two_zpow_log_le _ (abs_pos.2 hx)⟩

/-- A float64 value is a whole multiple of the spacing at any number, unless
it is smaller in magnitude than the power of two of that number's exponent,
which is then at most that number's magnitude. -/
theorem isFloat64_multiple (T y : ℚ) (hT : IsFloat64 T) :
    (∃ N : Int, T = (N : ℚ) * f64Ulp y) ∨
      (|T| < (2 : ℚ) ^ f64Exponent y ∧ (2 : ℚ) ^ f64Exponent y ≤ |y|) := by
  obtain ⟨n, j, hn, hj, _, rfl⟩ := hT
  rcases le_or_lt (f64Exponent y - 52) j with h | h
  · left
    refine ⟨n * 2 ^ (j - (f64Exponent y - 52)).toNat, ?_⟩
    unfold f64Ulp
    push_cast
    have hk : ((j - (f64Exponent y - 52)).toNat : Int) = j - (f64Exponent y - 52) :=
      Int.toNat_of_nonneg (by omega)
    rw [mul_assoc, ← zpow_natCast, hk, ← zpow_add₀ (by norm_num : (2 : ℚ) ≠ 0)]
    congr 2
    omega
  · right
    have hE : -1022 < f64Exponent y := by omega
    rcases exponent_cases y with hc | hc
    · omega
    · refine ⟨?_, hc.2⟩
      rw [abs_mul, abs_of_pos (by positivity : (0 : ℚ) < 2 ^ j)]
      have hn' : |(n : ℚ)| < 2 ^ 53 := by exact_mod_cast hn
      have h2 : (2 : ℚ) ^ j ≤ 2 ^ (f64Exponent y - 53) :=
        zpow_le_zpow_right₀ (by norm_num) (by omega)
      calc |(n : ℚ)| * 2 ^ j ≤ |(n : ℚ)| * 2 ^ (f64Exponent y - 53) :=
            mul_le_mul_of_nonneg_left h2 (abs_nonneg _)
        _ < 2 ^ 53 * 2 ^ (f64Exponent y - 53) :=
            mul_lt_mul_of_pos_right hn' (by positivity)
        _ = 2 ^ f64Exponent y := by
            rw [← zpow_natCast, ← zpow_add₀ (by norm_num : (2 : ℚ) ≠ 0)]
            congr 1
            omega

/-- The power of two of the exponent is 2^52 spacings. -/
theorem pow_exponent_eq (y : ℚ) :
    (2 : ℚ) ^ f64Exponent y = ((4503599627370496 : Int) : ℚ) * f64Ulp y := by
  unfold f64Ulp
  have h52 : ((4503599627370496 : Int) : ℚ) = (2 : ℚ) ^ (52 : Int) := by norm_num
  rw [h52, ← zpow_add₀ (by norm_num : (2 : ℚ) ≠ 0)]
  congr 1
  omega

/-- Rounding to float64 does not cross a float64 value from above. -/
theorem le_f64 (T y : ℚ) (hT : IsFloat64 T) (h : T ≤ y) : T ≤ f64 y := by
  have hq := f64Ulp_pos y
  have key : ∃ N : Int, T ≤ (N : ℚ) * f64Ulp y ∧ (N : ℚ) ≤ y / f64Ulp y := by
    rcases isFloat64_multiple T y hT with ⟨N, hN⟩ | ⟨hlt, hle⟩
    · refine ⟨N, le_of_eq hN, ?_⟩
      rw [le_div_iff₀ hq, ← hN]
      exact h
    · have hy : 0 < y := by
        by_contra hc
        have hy0 : y ≤ 0 := not_lt.1 hc
        rw [abs_of_nonpos hy0] at hle
        have := neg_abs_le T
        linarith
      rw [abs_of_pos hy] at hle
      refine ⟨4503599627370496, ?_, ?_⟩
      · rw [← pow_exponent_eq]
        exact le_of_lt (lt_of_le_of_lt (le_abs_self T) hlt)
      · rw [le_div_iff₀ hq, ← pow_exponent_eq]
        exact hle
  obtain ⟨N, h1, h2⟩ := key
  have h3 : N ≤ roundHalfEven (y / f64Ulp y) := le_roundHalfEven _ N h2
  have h4 : (N : ℚ) ≤ (roundHalfEven (y / f64Ulp y) : ℚ) := by exact_mod_cast h3
  unfold f64
  calc T ≤ (N : ℚ) * f64Ulp y := h1
    _ ≤ (roundHalfEven (y / f64Ulp y) : ℚ) * f64Ulp y :=
        mul_le_mul_of_nonneg_right h4 (le_of_lt hq)

/-- Rounding to float64 does not cross a float64 value from below. -/
theorem f64_le (T y : ℚ) (hT : IsFloat64 T) (h : y ≤ T) : f64 y ≤ T := by
  have hq := f64Ulp_pos y
  have key : ∃ N : Int, (N : ℚ) * f64Ulp y ≤ T ∧ y / f64Ulp y ≤ (N : ℚ) := by
    rcases isFloat64_multiple T y hT with ⟨N, hN⟩ | ⟨hlt, hle⟩
    · refine ⟨N, le_of_eq hN.symm, ?_⟩
      rw [div_le_iff₀ hq, ← hN]
      exact h
    · have hy : y < 0 := by
        by_contra hc
        have hy0 : 0 ≤ y := not_lt.1 hc
        rw [abs_of_nonneg hy0] at hle
        have := le_abs_self T
        linarith
      rw [abs_of_neg hy] at hle
      have hneg : ((-4503599627370496 : Int) : ℚ) * f64Ulp y = -((2 : ℚ) ^ f64Exponent y) := by
        rw [pow_exponent_eq]
        push_cast
        ring
      refine ⟨-4503599627370496, ?_, ?_⟩
      · rw [hneg]
        have := neg_abs_le T
        linarith
      · rw [div_le_iff₀ hq, hneg]
        linarith
  obtain ⟨N, h1, h2⟩ := key
  have h3 : roundHalfEven (y / f64Ulp y) ≤ N := roundHalfEven_le _ N h2
  have h4 : (roundHalfEven (y / f64Ulp y) : ℚ) ≤ (N : ℚ) := by exact_mod_cast h3
  unfold f64
  calc (roundHalfEven (y / f64Ulp y) : ℚ) * f64Ulp y ≤ (N : ℚ) * f64Ulp y :=
        mul_le_mul_of_nonneg_right h4 (le_of_lt hq)
    _ ≤ T := h1

/-- A float64 value is not changed by rounding. -/
theorem f64_of_isFloat64 (T : ℚ) (hT : IsFloat64 T) : f64 T = T :=
  le_antisymm (f64_le T T hT le_rfl) (le_f64 T T hT le_rfl)

/-- For a number of normal magnitude the rounding error is at most the
magnitude divided by 2^53. -/
theorem f64_error_rel (x : ℚ) (hx : 1 ≤ |x|) : |f64 x - x| ≤ |x| / 2 ^ 53 := by
  have h := f64_error_ulp x
  have hpos : 0 < |x| := lt_of_lt_of_le one_pos hx
  have hlog : (0 : Int) ≤ Int.log 2 |x| := by
    rw [← Int.zpow_le_iff_le_log (by norm_num) hpos]
    simpa using hx
  have hE : f64Exponent x = Int.log 2 |x| := by
    unfold f64Exponent
    rw [if_neg (abs_pos.1 hpos)]
    exact max_eq_left (by omega)
  have hulp : f64Ulp x ≤ |x| / 2 ^ 52 := by
    unfold f64Ulp
    rw [hE, zpow_sub₀ (by norm_num : (2 : ℚ) ≠ 0)]
    have := two_zpow_log_le |x| hpos
    have h52 : ((2 : ℚ) ^ (52 : Int)) = 2 ^ 52 := by norm_cast
    rw [h52]
    exact div_le_div_of_nonneg_right this (by positivity)
  calc |f64 x - x| ≤ f64Ulp x / 2 := h
    _ ≤ |x| / 2 ^ 52 / 2 := by linarith
    _ = |x| / 2 ^ 53 := by ring

/-- Evaluation of a rounding: a number of exponent `E` rounds to `n` spacings
when it is within less than half a spacing of them. -/
theorem f64_eq_of_near (x : ℚ) (E n : Int) (hE : -1022 ≤ E) (hlo : (2 : ℚ) ^ E ≤ |x|)
    (hhi : |x| < (2 : ℚ) ^ (E + 1)) (hnear : |x / (2 : ℚ) ^ (E - 52) - (n : ℚ)| < 1 / 2) :
    f64 x = (n : ℚ) * (2 : ℚ) ^ (E - 52) := by
  have hlog := log_eq_of_bounds |x| E hlo hhi
  have hexp : f64Exponent x = E := by
    have hx : x ≠ 0 := abs_pos.1 (lt_of_lt_of_le (by positivity) hlo)
    unfold f64Exponent
    rw [if_neg hx, hlog]
    exact max_eq_left hE
  unfold f64 f64Ulp
  rw [hexp, roundHalfEven_of_near _ n hnear]

/-- An integer below 2^53 in magnitude is a float64 value. -/
theorem isFloat64_intCast (n : Int) (hn : |n| < 2 ^ 53) : IsFloat64 (n : ℚ) :=
  ⟨n, 0, hn, by norm_num, by norm_num, by simp⟩

/-- The negative of a float64 value is a float64 value. -/
theorem IsFloat64.neg {x : ℚ} (h : IsFloat64 x) : IsFloat64 (-x) := by
  obtain ⟨n, j, hn, hj, hj2, rfl⟩ := h
  exact ⟨-n, j, by simpa using hn, hj, hj2, by push_cast; ring⟩

/-- Sample values that are float64 values and so are not changed by
rounding. -/
theorem f64_sample_values :
    f64 0 = 0 ∧ f64 1 = 1 ∧ f64 10 = 10 ∧ f64 1000 = 1000 ∧ f64 (51 / 2) = 51 / 2 ∧
    f64 2550 = 2550 := by
  have h0 := f64_of_isFloat64 _ (isFloat64_intCast 0 (by norm_num))
  have h1 := f64_of_isFloat64 _ (isFloat64_intCast 1 (by norm_num))
  have h10 := f64_of_isFloat64 _ (isFloat64_intCast 10 (by norm_num))
  have h1000 := f64_of_isFloat64 _ (isFloat64_intCast 1000 (by norm_num))
  have h2550 := f64_of_isFloat64 _ (isFloat64_intCast 2550 (by norm_num))
  have h51 : f64 (51 / 2) = 51 / 2 :=
    f64_of_isFloat64 _ ⟨51, -1, by norm_num, by norm_num, by norm_num, by norm_num⟩
  refine ⟨?_, ?_, ?_, ?_, h51, ?_⟩
  · simpa using h0
  · simpa using h1
  · simpa using h10
  · simpa using h1000
  · simpa using h2550

/-! ## Winner resolution -/

/-- Invariant of the scan: if the current winner points into the part `pre`
already scanned, is maximal there and is the first of its amount, the pointer
returned has the three properties in the whole ledger. -/
theorem determineWinnerLoop_spec (rest : List Bid) :
    ∀ (pre : List Bid) (w : BidPtr),
      pre[w.index]? = some w.val →
      (∀ b ∈ pre, b.Amount ≤ w.val.Amount) →
      (∀ j b, j < w.index → pre[j]? = some b → b.Amount < w.val.Amount) →
      (pre ++ rest)[(determineWinnerLoop w pre.length rest).index]?
          = some (determineWinnerLoop w pre.length rest).val ∧
      (∀ b ∈ pre ++ rest, b.Amount ≤ (determineWinnerLoop w pre.length rest).val.Amount) ∧
      (∀ j b, j < (determineWinnerLoop w pre.length rest).index →
          (pre ++ rest)[j]? = some b →
          b.Amount < (determineWinnerLoop w pre.length rest).val.Amount) := by
  induction rest with
  | nil =>
    intro pre w hidx hmax hfirst
    simpa [determineWinnerLoop] using ⟨hidx, hmax, hfirst⟩
  | cons b rest ih =>
    intro pre w hidx hmax hfirst
    have hlt : w.index < pre.length := by
      rcases List.getElem?_eq_some.1 hidx with ⟨h, _⟩
      exact h
    have hlen : (pre ++ [b]).length = pre.length + 1 := by simp
    have happ : pre ++ b :: rest = (pre ++ [b]) ++ rest := by simp
    rw [happ]
    unfold determineWinnerLoop
    by_cases hgt : b.Amount > w.val.Amount
    · rw [if_pos hgt, ← hlen]
      apply ih
      · simp
      · intro x hx
        rcases List.mem_append.1 hx with hx | hx
        · exact le_of_lt (lt_of_le_of_lt (hmax x hx) hgt)
        · simp at hx
          simp [hx]
      · intro j x hj hx
        simp only at hj
        rw [List.getElem?_append_left hj] at hx
        exact lt_of_le_of_lt (hmax x (List.getElem?_mem hx)) hgt
    · rw [if_neg hgt, ← hlen]
      apply ih
      · rw [List.getElem?_append_left hlt]
        exact hidx
      · intro x hx
        rcases List.mem_append.1 hx with hx | hx
        · exact hmax x hx
        · simp at hx
          rw [hx]
          exact not_lt.1 hgt
      · intro j x hj hx
        rw [List.getElem?_append_left (lt_trans hj hlt)] at hx
        exact hfirst j x hj hx

/-- On a non-empty ledger the scan returns a pointer into the ledger to a bid
of maximal amount, every earlier bid being strictly smaller. -/
theorem determineWinner_spec (p : Processor) (h : p.auction.Bids ≠ []) :
    ∃ w, p.determineWinner = some w ∧
      p.auction.Bids[w.index]? = some w.val ∧
      (∀ b ∈ p.auction.Bids, b.Amount ≤ w.val.Amount) ∧
      (∀ j b, j < w.index → p.auction.Bids[j]? = some b → b.Amount < w.val.Amount) := by
  unfold Processor.determineWinner
  cases hb : p.auction.Bids with
  | nil => exact absurd hb h
  | cons b rest =>
    refine ⟨_, rfl, ?_⟩
    have key := determineWinnerLoop_spec rest [b] { index := 0, val := b }
      (by simp) (by simp) (by intro j x hj; simp at hj)
    simpa using key

/-- C1. For every auction whose ledger is non-empty, `determineWinner` returns
a bid that is an element of the ledger (the pointer returned is the address of
a ledger entry) and whose amount is greater than or equal to the amount of
every bid in the ledger. -/
theorem determineWinner_is_maximal (p : Processor) (h : p.auction.Bids ≠ []) :
    ∃ w, p.determineWinner = some w ∧
      p.auction.Bids[w.index]? = some w.val ∧
      w.val ∈ p.auction.Bids ∧
      ∀ b ∈ p.auction.Bids, w.val.Amount ≥ b.Amount := by
  obtain ⟨w, hw, hidx, hmax, _⟩ := determineWinner_spec p h
  exact ⟨w, hw, hidx, List.getElem?_mem hidx, hmax⟩

/-- The scenario of C1: on the ledger 10.00, 25.50, 25.50 the winner is an
element of the ledger with the maximal amount. -/
theorem determineWinner_is_maximal_witness :
    (NewProcessor (sampleAuction 0 sampleLedger)).auction.Bids ≠ [] ∧
    ∃ w, (NewProcessor (sampleAuction 0 sampleLedger)).determineWinner = some w ∧
      (NewProcessor (sampleAuction 0 sampleLedger)).auction.Bids[w.index]? = some w.val ∧
      w.val ∈ (NewProcessor (sampleAuction 0 sampleLedger)).auction.Bids ∧
      ∀ b ∈ (NewProcessor (sampleAuction 0 sampleLedger)).auction.Bids,
        w.val.Amount ≥ b.Amount :=
  ⟨by simp [NewProcessor, sampleAuction, sampleLedger],
   determineWinner_is_maximal (NewProcessor (sampleAuction 0 sampleLedger))
     (by simp [NewProcessor, sampleAuction, sampleLedger])⟩

/-- C2. For every non-empty ledger the bid returned by `determineWinner` is
the first bid in ledger order that has the maximum amount: it sits at the
position returned, no bid of the ledger has a greater amount, and every bid at
an earlier position has a strictly smaller amount. -/
theorem determineWinner_first_maximum (p : Processor) (h : p.auction.Bids ≠ []) :
    ∃ w, p.determineWinner = some w ∧
      p.auction.Bids[w.index]? = some w.val ∧
      (∀ b ∈ p.auction.Bids, b.Amount ≤ w.val.Amount) ∧
      (∀ j b, j < w.index → p.auction.Bids[j]? = some b → b.Amount < w.val.Amount) :=
  determineWinner_spec p h

/-- The scenario of C2: on the ledger 10.00, 25.50, 25.50 the hypothesis holds
and the conclusion follows. -/
theorem determineWinner_first_maximum_witness :
    (NewProcessor (sampleAuction 0 sampleLedger)).auction.Bids ≠ [] ∧
    ∃ w, (NewProcessor (sampleAuction 0 sampleLedger)).determineWinner = some w ∧
      (NewProcessor (sampleAuction 0 sampleLedger)).auction.Bids[w.index]? = some w.val ∧
      (∀ b ∈ (NewProcessor (sampleAuction 0 sampleLedger)).auction.Bids,
        b.Amount ≤ w.val.Amount) ∧
      (∀ j b, j < w.index →
        (NewProcessor (sampleAuction 0 sampleLedger)).auction.Bids[j]? = some b →
        b.Amount < w.val.Amount) :=
  ⟨by simp [NewProcessor, sampleAuction, sampleLedger],
   determineWinner_first_maximum (NewProcessor (sampleAuction 0 sampleLedger))
     (by simp [NewProcessor, sampleAuction, sampleLedger])⟩

/-- On the ledger 10.00, 25.50, 25.50 the winner is the bid at position 1, the
first of the two bids of 25.50. -/
theorem determineWinner_sampleLedger :
    (NewProcessor (sampleAuction 0 sampleLedger)).determineWinner
      = some { index := 1, val := sampleBid "bidder-2" (51 / 2) } := by
  norm_num [NewProcessor, sampleAuction, sampleLedger, Processor.determineWinner,
    determineWinnerLoop, sampleBid]

/-! ## Collection and the runner of one auction -/

/-- The ledger after a sequence of `AddBid` is the ledger before followed by
the bids added; nothing else of the auction changes. -/
theorem foldl_AddBid (bids : List Bid) :
    ∀ p : Processor,
      (bids.foldl Processor.AddBid p).auction
        = { p.auction with Bids := p.auction.Bids ++ bids } := by
  induction bids with
  | nil => intro p; simp
  | cons b rest ih =>
    intro p
    rw [List.foldl_cons, ih]
    simp [Processor.AddBid]

/-- The instant at which the collection ends is not before its start. -/
theorem foldl_finish_ge (outs : List TaskOutcome) :
    ∀ t : Time, t ≤ outs.foldl (fun t out => max t out.finish) t := by
  induction outs with
  | nil => intro t; simp
  | cons o rest ih =>
    intro t
    rw [List.foldl_cons]
    exact le_trans (le_max_left _ _) (ih _)

/-- A context made by `WithTimeout` has a done instant, not later than the
deadline. -/
theorem WithTimeout_doneAt (parent : Context) (now : Time) (timeout : Duration) :
    ∃ d, (WithTimeout parent now timeout).doneAt = some d ∧ d ≤ now + timeout := by
  unfold WithTimeout
  cases hp : parent.doneAt with
  | none => exact ⟨_, rfl, le_refl _⟩
  | some d =>
    by_cases h : d ≤ now + timeout
    · simp only [h, if_true]
      exact ⟨d, hp, h⟩
    · simp only [h, if_false]
      exact ⟨_, rfl, le_refl _⟩

/-- Under a context that becomes done, the goroutine of a participant
returns. -/
theorem bidTask_returns (sim : Simulator) (ctx : Context) (req : BidRequest) (start : Time)
    (env : TaskEnv) (d : Time) (hd : ctx.doneAt = some d) :
    ∃ out, bidTask sim ctx req start env = some out := by
  unfold bidTask
  simp only [select2, hd]
  split
  · rename_i h; simp at h
  · exact ⟨_, rfl⟩
  · split
    · split
      · rename_i h; simp at h
      · exact ⟨_, rfl⟩
      · exact ⟨_, rfl⟩
    · exact ⟨_, rfl⟩

/-- Under a context that becomes done, all goroutines of a collection return,
one outcome per simulator. -/
theorem runTasks_returns (ctx : Context) (req : BidRequest) (start : Time) (task : Nat → TaskEnv)
    (d : Time) (hd : ctx.doneAt = some d) (sims : List Simulator) :
    ∀ i, ∃ outs, runTasks ctx req start task i sims = some outs ∧ outs.length = sims.length := by
  induction sims with
  | nil => intro i; exact ⟨[], rfl, rfl⟩
  | cons sim rest ih =>
    intro i
    obtain ⟨out, hout⟩ := bidTask_returns sim ctx req start (task i) d hd
    obtain ⟨outs, houts, hlen⟩ := ih (i + 1)
    refine ⟨out :: outs, ?_, by simp [hlen]⟩
    simp [runTasks, hout, houts]

/-- Every outcome of a collection is the outcome of the goroutine of one of
the simulators. -/
theorem runTasks_outcome (ctx : Context) (req : BidRequest) (start : Time) (task : Nat → TaskEnv)
    (sims : List Simulator) :
    ∀ i outs, runTasks ctx req start task i sims = some outs →
      ∀ k out, outs[k]? = some out →
        ∃ sim, sims[k]? = some sim ∧ bidTask sim ctx req start (task (i + k)) = some out := by
  induction sims with
  | nil =>
    intro i outs h k out hk
    simp [runTasks] at h
    subst h
    simp at hk
  | cons sim rest ih =>
    intro i outs h k out hk
    unfold runTasks at h
    cases h1 : bidTask sim ctx req start (task i) with
    | none => simp [h1] at h
    | some o1 =>
      cases h2 : runTasks ctx req start task (i + 1) rest with
      | none => simp [h1, h2] at h
      | some os =>
        simp [h1, h2] at h
        subst h
        cases k with
        | zero =>
          simp at hk
          subst hk
          exact ⟨sim, by simp, by simpa using h1⟩
        | succ k =>
          simp at hk
          obtain ⟨sim1, hs, hb⟩ := ih (i + 1) os h2 k out hk
          refine ⟨sim1, by simpa using hs, ?_⟩
          have : i + 1 + k = i + (k + 1) := by omega
          rw [this] at hb
          exact hb

/-- The shape of what `runSingleAuction` returns: it always returns, and the
result and the auction it leaves are determined by the ledger, which is the
previous ledger followed by the bids delivered. -/
theorem runSingleAuction_spec (o : Orchestrator) (ctx : Context) (auct : Auction)
    (auctionIndex : Nat) (now : Time) (env : CollectEnv) :
    ∃ outs r a,
      runTasks (WithTimeout ctx now auct.Timeout)
        { AuctionID := auct.ID, Attributes := auct.Attributes.map fun attr => attr.Value,
          Timeout := auct.Timeout, Timestamp := now }
        now env.task 0 o.bidderManager.GetBidderSimulators = some outs ∧
      o.runSingleAuction ctx auct auctionIndex now env = some (r, a) ∧
      a.Bids = auct.Bids ++ delivered outs env.order ∧
      a.ID = auct.ID ∧ a.IsComplete = true ∧
      r.AuctionID = auct.ID ∧ r.TotalBids = (a.Bids.length : Int) ∧ r.Error = none ∧
      r.StartTime = now ∧ now ≤ r.EndTime ∧
      r.Duration = timeSub r.EndTime r.StartTime ∧
      r.Winner = (if a.Bids = [] then none else (NewProcessor a).determineWinner) ∧
      a.Winner = (if a.Bids = [] then auct.Winner else r.Winner) := by
  obtain ⟨d, hd, _⟩ := WithTimeout_doneAt ctx now auct.Timeout
  obtain ⟨outs, houts, _⟩ := runTasks_returns (WithTimeout ctx now auct.Timeout)
    { AuctionID := auct.ID, Attributes := auct.Attributes.map fun attr => attr.Value,
      Timeout := auct.Timeout, Timestamp := now }
    now env.task d hd o.bidderManager.GetBidderSimulators 0
  have hge := foldl_finish_ge outs now
  refine ⟨outs, ?_⟩
  simp only [Orchestrator.runSingleAuction, Orchestrator.collectBids, houts,
    Processor.determineWinner, foldl_AddBid, NewProcessor]
  generalize outs.foldl (fun t out => max t out.finish) now = endNow at hge
  generalize auct.Bids ++ delivered outs env.order = ledger
  cases ledger with
  | nil => exact ⟨_, _, trivial, rfl, by simp [hge]⟩
  | cons b rest => exact ⟨_, _, trivial, rfl, by simp [hge]⟩

/-- The scenario: three participants whose bids of 10.00, 25.50 and 25.50
arrive in this order; the result counts three bids and the winner is the first
bid of 25.50. -/
theorem runSingleAuction_scenario :
    (sampleOrchestrator 1 []).runSingleAuction Background (sampleAuction 2000000000 []) 0 0
        sampleCollectEnv
      = some
          ({ AuctionID := "auction-1",
             Winner := some { index := 1,
                              val := { BidderID := "bidder-2", Amount := 51 / 2,
                                       Timestamp := 5000000 } },
             TotalBids := 3, Duration := 5000000, Error := none, StartTime := 0,
             EndTime := 5000000 },
           { ID := "auction-1", Attributes := [], StartTime := 0, EndTime := 0,
             Timeout := 2000000000,
             Winner := some { index := 1,
                              val := { BidderID := "bidder-2", Amount := 51 / 2,
                                       Timestamp := 5000000 } },
             Bids := [{ BidderID := "bidder-1", Amount := 10, Timestamp := 5000000 },
                      { BidderID := "bidder-2", Amount := 51 / 2, Timestamp := 5000000 },
                      { BidderID := "bidder-3", Amount := 51 / 2, Timestamp := 5000000 }],
             IsComplete := true }) := by
  obtain ⟨h0, _, h10, h1000, h51, h2550⟩ := f64_sample_values
  norm_num [Orchestrator.runSingleAuction, Orchestrator.collectBids, sampleOrchestrator,
    sampleAuction, sampleCollectEnv, Background, WithTimeout, bidder.Manager.GetBidderSimulators,
    bidder.Manager.GetBidders, runTasks, bidTask, select2, selectTimed, sampleTaskEnv,
    Simulator.EvaluateBid, Simulator.bidAmount, Simulator.variation, f64Add, f64Sub, f64Mul,
    f64Div, h0, h10, h1000, h51, h2550, Context.Err, NewSimulator, sampleBidder, wrapInt64,
    Millisecond, delivered, NewProcessor, Processor.AddBid, mathRound,
    Processor.determineWinner, determineWinnerLoop, timeSub, maxDuration, minDuration,
    List.filterMap, List.foldl]

/-- C3. `runSingleAuction` returns, and when the auction ends with zero
collected bids its result has no winner and a bid count of 0; `determineWinner`
on an empty ledger returns no bid. -/
theorem runSingleAuction_zero_bids (o : Orchestrator) (ctx : Context) (auct : Auction)
    (auctionIndex : Nat) (now : Time) (env : CollectEnv) :
    (∃ r a, o.runSingleAuction ctx auct auctionIndex now env = some (r, a) ∧
      (a.Bids = [] → r.Winner = none ∧ r.TotalBids = 0)) ∧
    (∀ p : Processor, p.auction.Bids = [] → p.determineWinner = none) := by
  constructor
  · obtain ⟨_, r, a, _, hrun, _, _, _, _, htotal, _, _, _, _, hwin, _⟩ :=
      runSingleAuction_spec o ctx auct auctionIndex now env
    refine ⟨r, a, hrun, ?_⟩
    intro hz
    rw [hz] at htotal hwin
    exact ⟨by simpa using hwin, by simpa using htotal⟩
  · intro p hp
    simp [Processor.determineWinner, hp]

/-- An auction in which no participant decides to bid ends with an empty
ledger, no winner and a bid count of 0. -/
theorem runSingleAuction_zero_bids_witness :
    ∃ r a, (sampleOrchestrator 0 []).runSingleAuction Background (sampleAuction 2000000000 []) 0 0
        sampleCollectEnv = some (r, a) ∧
      a.Bids = [] ∧ r.Winner = none ∧ r.TotalBids = 0 := by
  obtain ⟨r, a, hrun, h⟩ :=
    (runSingleAuction_zero_bids (sampleOrchestrator 0 []) Background
      (sampleAuction 2000000000 []) 0 0 sampleCollectEnv).1
  have ha : a.Bids = [] := by
    have hc : (sampleOrchestrator 0 []).runSingleAuction Background
        (sampleAuction 2000000000 []) 0 0 sampleCollectEnv
        = some ({ AuctionID := "auction-1", Winner := none, TotalBids := 0, Duration := 5000000,
                  Error := none, StartTime := 0, EndTime := 5000000 },
                { ID := "auction-1", Attributes := [], StartTime := 0, EndTime := 0,
                  Timeout := 2000000000, Winner := none, Bids := [], IsComplete := true }) := by
      norm_num [Orchestrator.runSingleAuction, Orchestrator.collectBids, sampleOrchestrator,
        sampleAuction, sampleCollectEnv, Background, WithTimeout,
        bidder.Manager.GetBidderSimulators, bidder.Manager.GetBidders, runTasks, bidTask,
        select2, selectTimed, sampleTaskEnv, Simulator.EvaluateBid, Context.Err, NewSimulator,
        sampleBidder, wrapInt64, Millisecond, delivered, NewProcessor, Processor.AddBid,
        timeSub, maxDuration, minDuration, List.filterMap, List.foldl]
    rw [hc] at hrun
    cases hrun
    rfl
  exact ⟨r, a, hrun, ha, h ha⟩

/-- C7. `runSingleAuction` returns for every auction and every outcome of the
collection; it marks the auction complete, counts the ledger, sets the duration
to `EndTime.Sub(StartTime)` (the plain difference whenever that fits a
duration), has a winner exactly when the ledger is non-empty, namely the one
`determineWinner` returns, and records the same winner on the auction and on
the result.  The hypothesis is the invariant of the data model: an auction
that comes with a winner has a bid in its ledger. -/
theorem runSingleAuction_completes (o : Orchestrator) (ctx : Context) (auct : Auction)
    (auctionIndex : Nat) (now : Time) (env : CollectEnv)
    (hwf : auct.Winner = none ∨ auct.Bids ≠ []) :
    ∃ r a, o.runSingleAuction ctx auct auctionIndex now env = some (r, a) ∧
      a.IsComplete = true ∧
      r.TotalBids = (a.Bids.length : Int) ∧
      r.Duration = timeSub r.EndTime r.StartTime ∧
      (r.EndTime - r.StartTime ≤ maxDuration → r.Duration = r.EndTime - r.StartTime) ∧
      (r.Winner ≠ none ↔ a.Bids ≠ []) ∧
      r.Winner = (NewProcessor a).determineWinner ∧
      a.Winner = r.Winner := by
  obtain ⟨_, r, a, _, hrun, hbids, _, hcomplete, _, htotal, _, hstart, hend, hdur, hwin, hawin⟩ :=
    runSingleAuction_spec o ctx auct auctionIndex now env
  refine ⟨r, a, hrun, hcomplete, htotal, hdur, ?_, ?_, ?_, ?_⟩
  · intro hfit
    rw [hdur]
    unfold timeSub
    have h1 : ¬ r.EndTime - r.StartTime > maxDuration := not_lt.2 hfit
    have h2 : ¬ r.EndTime - r.StartTime < minDuration := by
      have h3 : (0 : Int) ≤ r.EndTime - r.StartTime := by
        rw [hstart]
        exact sub_nonneg.2 hend
      have h4 : minDuration < 0 := by decide
      exact not_lt.2 (le_trans (le_of_lt h4) h3)
    rw [if_neg h1, if_neg h2]
  · by_cases hz : a.Bids = []
    · simp [hwin, hz]
    · obtain ⟨w, hw, _⟩ := determineWinner_spec (NewProcessor a) (by simpa [NewProcessor] using hz)
      simp [hwin, hz, hw]
  · by_cases hz : a.Bids = []
    · simp [hwin, hz, Processor.determineWinner, NewProcessor]
    · simp [hwin, hz]
  · by_cases hz : a.Bids = []
    · have hnil : auct.Bids = [] := by
        rw [hbids] at hz
        exact (List.append_eq_nil.1 hz).1
      have hnone : auct.Winner = none := by
        rcases hwf with h | h
        · exact h
        · exact absurd hnil h
      simp [hawin, hwin, hz, hnone]
    · simp [hawin, hz]

/-- The scenario of C7: an auction as `createAuction` makes it satisfies the
hypothesis. -/
theorem runSingleAuction_completes_witness :
    ((sampleAuction 2000000000 []).Winner = none ∨ (sampleAuction 2000000000 []).Bids ≠ []) ∧
    ∃ r a, (sampleOrchestrator 1 []).runSingleAuction Background (sampleAuction 2000000000 []) 0 0
        sampleCollectEnv = some (r, a) ∧
      a.IsComplete = true ∧
      r.TotalBids = (a.Bids.length : Int) ∧
      r.Duration = timeSub r.EndTime r.StartTime ∧
      (r.EndTime - r.StartTime ≤ maxDuration → r.Duration = r.EndTime - r.StartTime) ∧
      (r.Winner ≠ none ↔ a.Bids ≠ []) ∧
      r.Winner = (NewProcessor a).determineWinner ∧
      a.Winner = r.Winner :=
  ⟨Or.inl rfl,
   runSingleAuction_completes (sampleOrchestrator 1 []) Background (sampleAuction 2000000000 [])
     0 0 sampleCollectEnv (Or.inl rfl)⟩

/-! ## The bid evaluator and expired deadlines -/

/-- A `select` is left at or after the instant it is entered. -/
theorem selectTimed_ge (now : Time) (a : Option Time) (tb : Time) (pick : Bool) :
    now ≤ (selectTimed now a tb pick).2 := by
  unfold selectTimed
  cases a with
  | none => exact le_max_left _ _
  | some ta =>
    dsimp only
    split
    · exact le_max_left _ _
    · split
      · exact le_max_left _ _
      · exact le_max_left _ _

/-- The first statement of `EvaluateBid`: a call under a context that is done
returns at once with the error of the context. -/
theorem EvaluateBid_of_done (s : Simulator) (ctx : Context) (request : BidRequest)
    (now : Time) (env : EvalEnv) (d : Time) (hd : ctx.doneAt = some d) (hfired : d ≤ now) :
    s.EvaluateBid ctx request now env
      = { response := none, err := some ctx.cause, finish := now, draws := 0 } := by
  have herr : ctx.Err now = some ctx.cause := by simp [Context.Err, hd, hfired]
  simp [Simulator.EvaluateBid, herr]

/-- C10. If the deadline or cancellation of the context has already fired
when `EvaluateBid` is called, the call returns the error of the context and no
bid, at the instant of the call (it does not wait out the latency) and without
a draw from the random source. -/
theorem EvaluateBid_already_cancelled (s : Simulator) (ctx : Context) (request : BidRequest)
    (now : Time) (env : EvalEnv) (d : Time) (hd : ctx.doneAt = some d) (hfired : d ≤ now) :
    s.EvaluateBid ctx request now env
      = { response := none, err := some ctx.cause, finish := now, draws := 0 } ∧
    ctx.Err now = some ctx.cause :=
  ⟨EvaluateBid_of_done s ctx request now env d hd hfired, by simp [Context.Err, hd, hfired]⟩

/-- A participant with a latency of 5 ms, asked at instant 7 under a deadline
that fired at instant 3. -/
theorem EvaluateBid_already_cancelled_witness :
    ({ doneAt := some 3, cause := GoError.DeadlineExceeded } : Context).doneAt = some 3 ∧
    (3 : Time) ≤ 7 ∧
    (NewSimulator (sampleBidder "bidder-1" 1 10)).EvaluateBid
        { doneAt := some 3, cause := GoError.DeadlineExceeded }
        { AuctionID := "auction-1", Attributes := [], Timeout := 3, Timestamp := 0 } 7
        sampleTaskEnv.eval
      = { response := none, err := some GoError.DeadlineExceeded, finish := 7, draws := 0 } :=
  ⟨rfl, by decide,
   (EvaluateBid_already_cancelled (NewSimulator (sampleBidder "bidder-1" 1 10))
     { doneAt := some 3, cause := GoError.DeadlineExceeded }
     { AuctionID := "auction-1", Attributes := [], Timeout := 3, Timestamp := 0 } 7
     sampleTaskEnv.eval 3 rfl (by decide)).1⟩

/-- Under a context that is done when the collection starts, the goroutine of
a participant returns without a bid. -/
theorem bidTask_expired (sim : Simulator) (ctx : Context) (req : BidRequest) (start : Time)
    (env : TaskEnv) (d : Time) (hd : ctx.doneAt = some d) (hle : d ≤ start) :
    ∀ out, bidTask sim ctx req start env = some out → out.bid = none := by
  intro out hout
  unfold bidTask at hout
  simp only [select2, hd] at hout
  have hge := selectTimed_ge (start + env.arrive) env.permitAt d env.pickAcquire
  cases hsel : selectTimed (start + env.arrive) env.permitAt d env.pickAcquire with
  | mk c t =>
    rw [hsel] at hout hge
    have ht : d ≤ t := by
      have h1 : start ≤ start + (env.arrive : Int) :=
        le_add_of_nonneg_right (Int.ofNat_nonneg _)
      exact le_trans hle (le_trans h1 hge)
    cases c with
    | false =>
      simp at hout
      rw [← hout]
    | true =>
      simp only [EvaluateBid_of_done sim ctx req t env.eval d hd ht] at hout
      simp at hout
      rw [← hout]

/-- When no goroutine has sent a bid, nothing is delivered. -/
theorem delivered_nil (outs : List TaskOutcome)
    (h : ∀ (k : Nat) (out : TaskOutcome), outs[k]? = some out → out.bid = none)
    (order : List Nat) :
    delivered outs order = [] := by
  unfold delivered
  rw [List.filterMap_eq_nil_iff]
  intro i _
  cases hk : outs[i]? with
  | none => simp [hk]
  | some out => simp [hk, h i out hk]

/-- C6. For an auction whose timeout is 0, `runSingleAuction` returns with
the auction marked complete and the ledger as it was before: no evaluator
contributes a bid.  The result counts the bids of that ledger, so for an
auction that starts with an empty ledger the bid count is 0 and there is no
winner. -/
theorem runSingleAuction_timeout_zero (o : Orchestrator) (ctx : Context) (auct : Auction)
    (auctionIndex : Nat) (now : Time) (env : CollectEnv) (h0 : auct.Timeout = 0) :
    ∃ r a, o.runSingleAuction ctx auct auctionIndex now env = some (r, a) ∧
      a.IsComplete = true ∧
      a.Bids = auct.Bids ∧
      r.TotalBids = (auct.Bids.length : Int) ∧
      (auct.Bids = [] → r.TotalBids = 0 ∧ r.Winner = none) := by
  obtain ⟨outs, r, a, houts, hrun, hbids, _, hcomplete, _, htotal, _, _, _, _, hwin, _⟩ :=
    runSingleAuction_spec o ctx auct auctionIndex now env
  obtain ⟨d, hd, hdle⟩ := WithTimeout_doneAt ctx now auct.Timeout
  have hdnow : d ≤ now := by
    rw [h0] at hdle
    simpa using hdle
  have hnone : ∀ (k : Nat) (out : TaskOutcome), outs[k]? = some out → out.bid = none := by
    intro k out hk
    obtain ⟨sim, _, hb⟩ := runTasks_outcome _ _ _ _ _ 0 outs houts k out hk
    exact bidTask_expired sim _ _ now _ d hd hdnow out hb
  have hsame : a.Bids = auct.Bids := by
    rw [hbids, delivered_nil outs hnone env.order, List.append_nil]
  refine ⟨r, a, hrun, hcomplete, hsame, by rw [htotal, hsame], ?_⟩
  intro hempty
  have ha : a.Bids = [] := by rw [hsame, hempty]
  rw [ha] at htotal hwin
  exact ⟨by simpa using htotal, by simpa using hwin⟩

/-- The scenario of C6: one auction as `createAuction` makes it, with timeout
0, and three participants that would always bid. -/
theorem runSingleAuction_timeout_zero_witness :
    (sampleAuction 0 []).Timeout = 0 ∧
    ∃ r a, (sampleOrchestrator 1 []).runSingleAuction Background (sampleAuction 0 []) 0 0
        sampleCollectEnv = some (r, a) ∧
      a.IsComplete = true ∧
      a.Bids = (sampleAuction 0 []).Bids ∧
      r.TotalBids = ((sampleAuction 0 []).Bids.length : Int) ∧
      ((sampleAuction 0 []).Bids = [] → r.TotalBids = 0 ∧ r.Winner = none) :=
  ⟨rfl,
   runSingleAuction_timeout_zero (sampleOrchestrator 1 []) Background (sampleAuction 0 []) 0 0
     sampleCollectEnv rfl⟩

/-! ## The orchestrator: join of the runners -/

/-- Invariant of the join: after the goroutines in `completion` have stored
their results, started from the state `st`, the slots of these goroutines hold
their results, the other slots are as in `st`, and the error is the one of
`st` or else the first failure in the order of `completion`. -/
theorem runAll_fold (run : Nat → Auction → Option AuctionResult) (auctions : List Auction)
    (htotal : ∀ (i : Nat) (a : Auction), auctions[i]? = some a → ∃ r, run i a = some r)
    (completion : List Nat) :
    ∀ st : List (Option AuctionResult) × Option GoError, st.1.length = auctions.length →
      ∃ st1, completion.foldl
          (fun st idx =>
            match st, auctions.get? idx with
            | none, _ => none
            | some st, none => some st
            | some st, some auct =>
              match run idx auct with
              | none => none
              | some result => some (storeResult st idx result))
          (some st) = some st1 ∧
        st1.1.length = auctions.length ∧
        (∀ (i : Nat) (a : Auction), i ∈ completion → auctions[i]? = some a →
          ∃ r, run i a = some r ∧ st1.1[i]? = some (some r)) ∧
        (∀ i : Nat, i ∉ completion → st1.1[i]? = st.1[i]?) ∧
        st1.2 = (match st.2 with
                 | some e => some e
                 | none => completion.findSome? fun idx =>
                     match auctions.get? idx with
                     | some a => (match run idx a with
                                  | some r => r.Error
                                  | none => none)
                     | none => none) := by
  induction completion with
  | nil =>
    intro st hlen
    refine ⟨st, rfl, hlen, ?_, ?_, ?_⟩
    · intro i a hi
      simp at hi
    · intro i _
      rfl
    · cases st.2 <;> simp
  | cons i rest ih =>
    intro st hlen
    rw [List.foldl_cons]
    cases ha : auctions[i]? with
    | none =>
      simp only [List.get?_eq_getElem?, ha]
      obtain ⟨st1, hfold, hlen1, hin, hout, herr⟩ := ih st hlen
      simp only [List.get?_eq_getElem?] at hfold herr
      refine ⟨st1, hfold, hlen1, ?_, ?_, ?_⟩
      · intro j a hj haj
        rcases List.mem_cons.1 hj with hj | hj
        · rw [hj, ha] at haj
          simp at haj
        · exact hin j a hj haj
      · intro j hj
        exact hout j (fun h => hj (List.mem_cons_of_mem _ h))
      · rw [herr]
        cases st.2 <;> simp [List.findSome?_cons, ha]
    | some a =>
      obtain ⟨r, hr⟩ := htotal i a ha
      simp only [List.get?_eq_getElem?, ha, hr]
      have hilt : i < st.1.length := by
        rw [hlen]
        exact (List.getElem?_eq_some.1 ha).1
      have hlen0 : (storeResult st i r).1.length = auctions.length := by
        simp [storeResult, hlen]
      obtain ⟨st1, hfold, hlen1, hin, hout, herr⟩ := ih (storeResult st i r) hlen0
      simp only [List.get?_eq_getElem?] at hfold herr
      refine ⟨st1, hfold, hlen1, ?_, ?_, ?_⟩
      · intro j b hj hbj
        by_cases hjr : j ∈ rest
        · exact hin j b hjr hbj
        · have hji : j = i := by
            rcases List.mem_cons.1 hj with h | h
            · exact h
            · exact absurd h hjr
          subst hji
          rw [ha] at hbj
          cases hbj
          refine ⟨r, hr, ?_⟩
          rw [hout j hjr]
          simp [storeResult, hilt]
      · intro j hj
        have hji : j ≠ i := fun h => hj (h ▸ List.mem_cons_self _ _)
        have hjr : j ∉ rest := fun h => hj (List.mem_cons_of_mem _ h)
        rw [hout j hjr]
        simp [storeResult, List.getElem?_set, Ne.symm hji]
      · rw [herr]
        cases hst : st.2 <;> cases hre : r.Error <;>
          simp [storeResult, List.findSome?_cons, ha, hr, hst, hre]

/-- What `runAll` returns when every runner returns and `completion` lists
every goroutine once: every slot holds the result of its own runner, and the
error is the first failure in the order of completion. -/
theorem runAll_spec (run : Nat → Auction → Option AuctionResult) (auctions : List Auction)
    (completion : List Nat)
    (htotal : ∀ (i : Nat) (a : Auction), auctions[i]? = some a → ∃ r, run i a = some r)
    (hperm : completion.Perm (List.range auctions.length)) :
    ∃ results err, runAll run auctions completion = some (results, err) ∧
      results.length = auctions.length ∧
      (∀ (i : Nat) (a : Auction), auctions[i]? = some a →
        ∃ r, run i a = some r ∧ results[i]? = some (some r)) ∧
      err = completion.findSome? (failureOf results) := by
  obtain ⟨st1, hfold, hlen1, hin, _, herr⟩ :=
    runAll_fold run auctions htotal completion (List.replicate auctions.length none, none)
      (by simp)
  have hslot : ∀ (i : Nat) (a : Auction), auctions[i]? = some a →
      ∃ r, run i a = some r ∧ st1.1[i]? = some (some r) := by
    intro i a ha
    have hi : i ∈ completion := by
      rw [hperm.mem_iff, List.mem_range]
      exact (List.getElem?_eq_some.1 ha).1
    exact hin i a hi ha
  refine ⟨st1.1, st1.2, hfold, hlen1, hslot, ?_⟩
  rw [herr]
  dsimp only
  congr 1
  funext idx
  unfold failureOf
  cases ha : auctions[idx]? with
  | none =>
    have hge : st1.1.length ≤ idx := by
      rw [hlen1]
      exact List.getElem?_eq_none_iff.1 ha
    simp [ha, List.getElem?_eq_none_iff.2 hge]
  | some a =>
    obtain ⟨r, hr, hs⟩ := hslot idx a ha
    simp [ha, hr, hs]

/-- C8. The join of `RunAllAuctions`, for any runners that return: the whole
result sequence is returned together with the error, every slot holding the
result of its own auction, failed or not; the error is non-nil exactly when at
least one returned result carries a failure, and it is the failure of the
first failing auction in the order in which the runners report. -/
theorem runAll_results_and_error (run : Nat → Auction → Option AuctionResult)
    (auctions : List Auction) (completion : List Nat)
    (htotal : ∀ (i : Nat) (a : Auction), auctions[i]? = some a → ∃ r, run i a = some r)
    (hperm : completion.Perm (List.range auctions.length)) :
    ∃ results err, runAll run auctions completion = some (results, err) ∧
      results.length = auctions.length ∧
      (∀ (i : Nat) (a : Auction), auctions[i]? = some a →
        ∃ r, run i a = some r ∧ results[i]? = some (some r)) ∧
      (err ≠ none ↔ ∃ r, some r ∈ results ∧ r.Error ≠ none) ∧
      err = completion.findSome? (failureOf results) := by
  obtain ⟨results, err, hrun, hlen, hslot, herr⟩ :=
    runAll_spec run auctions completion htotal hperm
  refine ⟨results, err, hrun, hlen, hslot, ?_, herr⟩
  rw [herr, ne_eq, List.findSome?_eq_none_iff]
  constructor
  · intro h
    by_contra hno
    apply h
    intro idx _
    unfold failureOf
    cases hs : results[idx]? with
    | none => simp [hs]
    | some slot =>
      cases slot with
      | none => simp [hs]
      | some r =>
        simp only [List.get?_eq_getElem?, hs]
        by_contra hne
        exact hno ⟨r, List.getElem?_mem hs, hne⟩
  · rintro ⟨r, hmem, hne⟩ hall
    obtain ⟨idx, hidx⟩ := List.mem_iff_getElem?.1 hmem
    have hlt : idx < auctions.length := by
      rw [← hlen]
      exact (List.getElem?_eq_some.1 hidx).1
    have hin : idx ∈ completion := by
      rw [hperm.mem_iff, List.mem_range]
      exact hlt
    have := hall idx hin
    simp [failureOf, hidx] at this
    exact hne this

/-- Three auctions whose runners report in the order 2, 0, 1, the runners of
the auctions 1 and 2 failing: all three results are returned and the error is
the failure of auction 2, the first to report. -/
theorem runAll_results_and_error_witness :
    runAll (sampleRunner [(1, GoError.DeadlineExceeded), (2, GoError.Canceled)]) sampleAuctions
        [2, 0, 1]
      = some ([some { AuctionID := "auction-1", Winner := none, TotalBids := 0, Duration := 0,
                      Error := none, StartTime := 0, EndTime := 0 },
               some { AuctionID := "auction-2", Winner := none, TotalBids := 0, Duration := 0,
                      Error := some GoError.DeadlineExceeded, StartTime := 0, EndTime := 0 },
               some { AuctionID := "auction-3", Winner := none, TotalBids := 0, Duration := 0,
                      Error := some GoError.Canceled, StartTime := 0, EndTime := 0 }],
              some GoError.Canceled) ∧
    ∃ results err,
      runAll (sampleRunner [(1, GoError.DeadlineExceeded), (2, GoError.Canceled)]) sampleAuctions
        [2, 0, 1] = some (results, err) ∧
      results.length = sampleAuctions.length ∧
      (∀ (i : Nat) (a : Auction), sampleAuctions[i]? = some a →
        ∃ r, sampleRunner [(1, GoError.DeadlineExceeded), (2, GoError.Canceled)] i a = some r ∧
          results[i]? = some (some r)) ∧
      (err ≠ none ↔ ∃ r, some r ∈ results ∧ r.Error ≠ none) ∧
      err = List.findSome? (failureOf results) [2, 0, 1] :=
  ⟨by decide,
   runAll_results_and_error (sampleRunner [(1, GoError.DeadlineExceeded), (2, GoError.Canceled)])
     sampleAuctions [2, 0, 1] (fun _ _ _ => ⟨_, rfl⟩) (by decide)⟩

/-- The runner of `RunAllAuctions` returns for every auction, with the
identity of the auction and without a failure: `runSingleAuction` never sets
the `Error` of its result. -/
theorem runner_returns (o : Orchestrator) (ctx : Context) (now : Time) (env : RunEnv)
    (i : Nat) (a : Auction) :
    ∃ r, (o.runSingleAuction ctx a i (now + env.launch i) (env.collect i)).map (fun x => x.1)
        = some r ∧ r.AuctionID = a.ID ∧ r.Error = none := by
  obtain ⟨_, r, a1, _, hrun, _, _, _, hid, _, herr, _⟩ :=
    runSingleAuction_spec o ctx a i (now + env.launch i) (env.collect i)
  exact ⟨r, by simp [hrun], hid, herr⟩

/-- C4. For every list of auctions and every order in which the runners
complete, `RunAllAuctions` returns a result sequence whose length is the
number of auctions and whose entry at every index `i` is the result of auction
`i`, carrying its identity. -/
theorem RunAllAuctions_index_stable (o : Orchestrator) (ctx : Context) (now : Time)
    (env : RunEnv)
    (hperm : env.completion.Perm (List.range o.auctionManager.GetAuctions.length)) :
    ∃ results err, o.RunAllAuctions ctx now env = some (results, err) ∧
      results.length = o.auctionManager.GetAuctions.length ∧
      ∀ (i : Nat) (a : Auction), o.auctionManager.GetAuctions[i]? = some a →
        ∃ r, results[i]? = some (some r) ∧ r.AuctionID = a.ID := by
  unfold Orchestrator.RunAllAuctions
  obtain ⟨results, err, hrun, hlen, hslot, _⟩ :=
    runAll_spec
      (fun idx auct =>
        (o.runSingleAuction (WithCancel ctx none) auct idx (now + env.launch idx)
          (env.collect idx)).map fun r => r.1)
      o.auctionManager.GetAuctions env.completion
      (fun i a _ => by
        obtain ⟨r, hr, _⟩ := runner_returns o (WithCancel ctx none) now env i a
        exact ⟨r, hr⟩)
      hperm
  refine ⟨results, err, hrun, hlen, ?_⟩
  intro i a ha
  obtain ⟨r, hr, hs⟩ := hslot i a ha
  obtain ⟨r1, hr1, hid, _⟩ := runner_returns o (WithCancel ctx none) now env i a
  have hrr : r = r1 := by
    have := hr.symm.trans hr1
    simpa using this
  exact ⟨r, hs, by rw [hrr]; exact hid⟩

/-- Three auctions whose runners complete in the order 2, 0, 1. -/
theorem RunAllAuctions_index_stable_witness :
    sampleRunEnv.completion.Perm
      (List.range (sampleOrchestrator 1 sampleAuctions).auctionManager.GetAuctions.length) ∧
    ∃ results err,
      (sampleOrchestrator 1 sampleAuctions).RunAllAuctions Background 0 sampleRunEnv
        = some (results, err) ∧
      results.length = (sampleOrchestrator 1 sampleAuctions).auctionManager.GetAuctions.length ∧
      ∀ (i : Nat) (a : Auction),
        (sampleOrchestrator 1 sampleAuctions).auctionManager.GetAuctions[i]? = some a →
        ∃ r, results[i]? = some (some r) ∧ r.AuctionID = a.ID :=
  ⟨by decide,
   RunAllAuctions_index_stable (sampleOrchestrator 1 sampleAuctions) Background 0 sampleRunEnv
     (by decide)⟩

/-! ## The admission gate -/

/-- Changing one element of a list changes a count by the element taken out
and the element put in. -/
theorem countP_modify {α : Type} (p : α → Bool) (f : α → α) :
    ∀ (l : List α) (i : Nat) (t : α), l[i]? = some t →
      (l.modify f i).countP p + (if p t then 1 else 0)
        = l.countP p + (if p (f t) then 1 else 0) := by
  intro l
  induction l with
  | nil =>
    intro i t h
    simp at h
  | cons x rest ih =>
    intro i t h
    cases i with
    | zero =>
      simp at h
      subst h
      simp only [List.modify_zero_cons, List.countP_cons]
      omega
    | succ i =>
      simp at h
      have := ih i t h
      simp only [List.modify_succ_cons, List.countP_cons]
      omega

/-- Moving one task changes the number of permit holders by the task as it
was and the task as it is. -/
theorem holding_setPc (s : GateState) (i : Nat) (t : GateTask) (pc : TaskPc) (permits : Nat)
    (expired : List Nat) (ht : s.tasks[i]? = some t) :
    GateState.holding { permits := permits, tasks := s.setPc i pc, expired := expired }
        + (if t.pc = TaskPc.evaluating ∨ t.pc = TaskPc.sending then 1 else 0)
      = s.holding + (if pc = TaskPc.evaluating ∨ pc = TaskPc.sending then 1 else 0) := by
  have key := countP_modify (fun t : GateTask =>
    decide (t.pc = TaskPc.evaluating ∨ t.pc = TaskPc.sending))
    (fun t => { t with pc := pc }) s.tasks i t ht
  simpa [GateState.holding, GateState.setPc] using key

/-- The invariant of the gate: the channel holds one element for each task
that holds a permit, and never more than its capacity. -/
theorem gateStep_invariant (cap : Nat) (s s1 : GateState) (a : GateAction)
    (hstep : gateStep cap s a = some s1)
    (hinv : s.permits = s.holding ∧ s.permits ≤ cap) :
    s1.permits = s1.holding ∧ s1.permits ≤ cap := by
  obtain ⟨hcount, hcap⟩ := hinv
  cases a with
  | expire b =>
    simp only [gateStep, Option.some.injEq] at hstep
    subst hstep
    exact ⟨hcount, hcap⟩
  | acquire i =>
    simp only [gateStep, List.get?_eq_getElem?] at hstep
    cases ht : s.tasks[i]? with
    | none => simp [ht] at hstep
    | some t =>
      simp only [ht] at hstep
      split at hstep
      · rename_i hg
        simp only [Option.some.injEq] at hstep
        subst hstep
        have key := holding_setPc s i t TaskPc.evaluating (s.permits + 1) s.expired ht
        rw [hg.1] at key
        simp at key
        have hpos := hg.2
        dsimp only
        omega
      · simp at hstep
  | abandon i =>
    simp only [gateStep, List.get?_eq_getElem?] at hstep
    cases ht : s.tasks[i]? with
    | none => simp [ht] at hstep
    | some t =>
      simp only [ht] at hstep
      split at hstep
      · rename_i hg
        simp only [Option.some.injEq] at hstep
        subst hstep
        have key := holding_setPc s i t TaskPc.finished s.permits s.expired ht
        rw [hg.1] at key
        simp at key
        dsimp only
        omega
      · simp at hstep
  | evalNoBid i =>
    simp only [gateStep, List.get?_eq_getElem?] at hstep
    cases ht : s.tasks[i]? with
    | none => simp [ht] at hstep
    | some t =>
      simp only [ht] at hstep
      split at hstep
      · rename_i hg
        simp only [Option.some.injEq] at hstep
        subst hstep
        have key := holding_setPc s i t TaskPc.finished (s.permits - 1) s.expired ht
        rw [hg.1] at key
        simp at key
        have hpos := hg.2
        dsimp only
        omega
      · simp at hstep
  | evalBid i =>
    simp only [gateStep, List.get?_eq_getElem?] at hstep
    cases ht : s.tasks[i]? with
    | none => simp [ht] at hstep
    | some t =>
      simp only [ht] at hstep
      split at hstep
      · rename_i hg
        simp only [Option.some.injEq] at hstep
        subst hstep
        have key := holding_setPc s i t TaskPc.sending s.permits s.expired ht
        rw [hg] at key
        simp at key
        dsimp only
        omega
      · simp at hstep
  | sendDone i =>
    simp only [gateStep, List.get?_eq_getElem?] at hstep
    cases ht : s.tasks[i]? with
    | none => simp [ht] at hstep
    | some t =>
      simp only [ht] at hstep
      split at hstep
      · rename_i hg
        simp only [Option.some.injEq] at hstep
        subst hstep
        have key := holding_setPc s i t TaskPc.finished (s.permits - 1) s.expired ht
        rw [hg.1] at key
        simp at key
        have hpos := hg.2
        dsimp only
        omega
      · simp at hstep

/-- The invariant holds along every sequence of steps. -/
theorem gateRun_invariant (cap : Nat) (actions : List GateAction) :
    ∀ s s1 : GateState, gateRun cap s actions = some s1 →
      (s.permits = s.holding ∧ s.permits ≤ cap) →
      s1.permits = s1.holding ∧ s1.permits ≤ cap := by
  induction actions with
  | nil =>
    intro s s1 h hinv
    simp only [gateRun, Option.some.injEq] at h
    subst h
    exact hinv
  | cons a rest ih =>
    intro s s1 h hinv
    unfold gateRun at h
    cases hstep : gateStep cap s a with
    | none => simp [hstep] at h
    | some s2 =>
      simp only [hstep] at h
      exact ih s2 s1 h (gateStep_invariant cap s s2 a hstep hinv)

/-- C5. With the semaphore sized from `MaxConcurrentBidders`, in every state
that the goroutines of any number of auctions and participants can reach, the
number of calls of `EvaluateBid` in progress is at most the size of the permit
pool. -/
theorem gate_bounds_evaluations (cfg : Config) (auctionMgr : auction.Manager)
    (bidderMgr : bidder.Manager) (o : Orchestrator)
    (ho : NewOrchestrator cfg auctionMgr bidderMgr = some o)
    (auctions : List Nat) (actions : List GateAction) (s : GateState)
    (hrun : gateRun o.semaphore (gateInit auctions) actions = some s) :
    s.evaluating ≤ o.semaphore ∧
    (s.evaluating : Int) ≤ cfg.ResourceLimits.MaxConcurrentBidders := by
  have hinit : (gateInit auctions).permits = (gateInit auctions).holding ∧
      (gateInit auctions).permits ≤ o.semaphore := by
    have hzero : (gateInit auctions).holding = 0 := by
      unfold GateState.holding gateInit
      rw [List.countP_eq_zero]
      intro t ht
      simp only [List.mem_map] at ht
      obtain ⟨a, _, rfl⟩ := ht
      simp
    constructor
    · rw [hzero]
      rfl
    · exact Nat.zero_le _
  obtain ⟨hcount, hcap⟩ := gateRun_invariant o.semaphore actions _ s hrun hinit
  have hle : s.evaluating ≤ s.holding := by
    unfold GateState.evaluating GateState.holding
    apply List.countP_mono_left
    intro t _ ht
    simp only [decide_eq_true_eq] at ht ⊢
    exact Or.inl ht
  have h1 : s.evaluating ≤ o.semaphore := by omega
  refine ⟨h1, ?_⟩
  unfold NewOrchestrator at ho
  split at ho
  · rename_i hnn
    simp only [Option.some.injEq] at ho
    subst ho
    simp only at h1
    omega
  · simp at ho

/-- A run with two permits and four tasks in which both permits are in use at
the end. -/
theorem gate_bounds_evaluations_witness :
    NewOrchestrator sampleConfig { config := sampleConfig, auctions := [] }
        { config := sampleConfig, bidders := [] }
      = some { config := sampleConfig,
               auctionManager := { config := sampleConfig, auctions := [] },
               bidderManager := { config := sampleConfig, bidders := [] },
               semaphore := 2 } ∧
    gateRun 2 (gateInit [0, 0, 0, 1]) sampleActions
      = some { permits := 2,
               tasks := [{ auction := 0, pc := TaskPc.finished },
                         { auction := 0, pc := TaskPc.evaluating },
                         { auction := 0, pc := TaskPc.finished },
                         { auction := 1, pc := TaskPc.evaluating }],
               expired := [0] } ∧
    GateState.evaluating
        { permits := 2,
          tasks := [{ auction := 0, pc := TaskPc.finished },
                    { auction := 0, pc := TaskPc.evaluating },
                    { auction := 0, pc := TaskPc.finished },
                    { auction := 1, pc := TaskPc.evaluating }],
          expired := [0] } ≤ 2 :=
  ⟨by decide, by decide,
   (gate_bounds_evaluations sampleConfig { config := sampleConfig, auctions := [] }
     { config := sampleConfig, bidders := [] }
     { config := sampleConfig,
       auctionManager := { config := sampleConfig, auctions := [] },
       bidderManager := { config := sampleConfig, bidders := [] },
       semaphore := 2 }
     (by decide) [0, 0, 0, 1] sampleActions _ (by decide)).1⟩

/-- With both permits taken, a third task cannot take the semaphore case. -/
theorem gate_refuses_third :
    gateRun 2 (gateInit [0, 0, 0, 1])
      [GateAction.acquire 0, GateAction.acquire 1, GateAction.acquire 2] = none := by
  decide

/-- A result sequence whose slots are all filled is a sequence of results. -/
theorem eq_map_some_of_slots (results : List (Option AuctionResult))
    (h : ∀ i, i < results.length → ∃ r, results[i]? = some (some r)) :
    ∃ rs : List AuctionResult, results = rs.map some := by
  induction results with
  | nil => exact ⟨[], rfl⟩
  | cons x rest ih =>
    obtain ⟨r, hr⟩ := h 0 (by simp)
    simp only [List.getElem?_cons_zero, Option.some.injEq] at hr
    obtain ⟨rs, hrs⟩ := ih (fun i hi => by
      obtain ⟨r1, hr1⟩ := h (i + 1) (by simp only [List.length_cons]; omega)
      exact ⟨r1, by simpa using hr1⟩)
    exact ⟨r :: rs, by simp [hr, hrs]⟩

/-- Reading a sequence of filled slots gives the results in the slots. -/
theorem derefAll_map_some (rs : List AuctionResult) : derefAll (rs.map some) = some rs := by
  induction rs with
  | nil => rfl
  | cons r rest ih => simp [derefAll, ih]

/-- In this program `RunAllAuctions` returns a result for every auction, in
the position of the auction, and its error is always nil: no runner records a
failure on its result. -/
theorem RunAllAuctions_error_nil (o : Orchestrator) (ctx : Context) (now : Time) (env : RunEnv)
    (hperm : env.completion.Perm (List.range o.auctionManager.GetAuctions.length)) :
    ∃ rs : List AuctionResult, o.RunAllAuctions ctx now env = some (rs.map some, none) ∧
      rs.length = o.auctionManager.GetAuctions.length ∧
      ∀ (i : Nat) (a : Auction), o.auctionManager.GetAuctions[i]? = some a →
        ∃ r, rs[i]? = some r ∧ r.AuctionID = a.ID ∧ r.Error = none := by
  unfold Orchestrator.RunAllAuctions
  obtain ⟨results, err, hrun, hlen, hslot, herr⟩ :=
    runAll_spec
      (fun idx auct =>
        (o.runSingleAuction (WithCancel ctx none) auct idx (now + env.launch idx)
          (env.collect idx)).map fun r => r.1)
      o.auctionManager.GetAuctions env.completion
      (fun i a _ => by
        obtain ⟨r, hr, _⟩ := runner_returns o (WithCancel ctx none) now env i a
        exact ⟨r, hr⟩)
      hperm
  have hfilled : ∀ (i : Nat) (a : Auction), o.auctionManager.GetAuctions[i]? = some a →
      ∃ r, results[i]? = some (some r) ∧ r.AuctionID = a.ID ∧ r.Error = none := by
    intro i a ha
    obtain ⟨r, hr, hs⟩ := hslot i a ha
    obtain ⟨r1, hr1, hid, he⟩ := runner_returns o (WithCancel ctx none) now env i a
    have hrr : r = r1 := by
      have := hr.symm.trans hr1
      simpa using this
    exact ⟨r, hs, by rw [hrr]; exact hid, by rw [hrr]; exact he⟩
  have hnone : err = none := by
    rw [herr, List.findSome?_eq_none_iff]
    intro idx hidx
    have hlt : idx < o.auctionManager.GetAuctions.length := by
      rw [hperm.mem_iff, List.mem_range] at hidx
      exact hidx
    obtain ⟨r, hs, _, he⟩ := hfilled idx _ (List.getElem?_eq_getElem hlt)
    simp [failureOf, hs, he]
  obtain ⟨rs, hrs⟩ := eq_map_some_of_slots results (fun i hi => by
    obtain ⟨r, hs, _⟩ := hfilled i _ (List.getElem?_eq_getElem (hlen ▸ hi))
    exact ⟨r, hs⟩)
  rw [hnone, hrs] at hrun
  refine ⟨rs, hrun, ?_, ?_⟩
  · rw [← hlen, hrs, List.length_map]
  · intro i a ha
    obtain ⟨r, hs, hid, he⟩ := hfilled i a ha
    rw [hrs, List.getElem?_map] at hs
    cases hget : rs[i]? with
    | none => simp [hget] at hs
    | some r1 =>
      rw [hget] at hs
      simp only [Option.map_some', Option.some.injEq] at hs
      exact ⟨r1, rfl, by rw [hs]; exact hid, by rw [hs]; exact he⟩

/-! ## The entry point -/

/-- Whatever the results, a failure returned by the orchestrator makes
`runSimulation` return an error and report nothing. -/
theorem runSimulation_error (cfg : Config) (results : List AuctionResult) (err : GoError) :
    runSimulation cfg (results, some err)
      = Except.error (GoError.wrapped "auction execution failed"
          (GoError.wrapped "error running auctions" err)) := rfl

/-- Without a failure every result reaches reporting: the results are saved
and listed, one line each, in the order returned. -/
theorem runSimulation_ok (cfg : Config) (results : List AuctionResult) :
    ∃ report, runSimulation cfg (results, none) = Except.ok report ∧
      report.saved = results ∧ report.details = printAuctionDetails results :=
  ⟨_, rfl, rfl, rfl⟩

/-- The line of `printAuctionDetails` for the result in position `i`: its
identity, its bid count, and the status `Success` or the text of its
failure. -/
theorem printAuctionDetails_row (results : List AuctionResult) (i : Nat) (r : AuctionResult)
    (hr : results[i]? = some r) :
    ∃ row, (printAuctionDetails results)[i]? = some row ∧ row.AuctionID = r.AuctionID ∧
      row.Bids = r.TotalBids ∧ (r.Error = none → row.Status = "Success") ∧
      ∀ e, r.Error = some e → row.Status = "Error: " ++ e.Error := by
  unfold printAuctionDetails
  rw [List.getElem?_map, hr]
  refine ⟨_, rfl, rfl, rfl, ?_, ?_⟩
  · intro he
    simp only [he]
  · intro e he
    simp only [he]

/-- C9, where the claim fails.  The orchestrator returns two results together
with a failure: the first auction ended without bids, the second failed on its
deadline with two bids.  The results do not reach reporting:
`runConcurrentAuctions` returns no results and the wrapped failure, and
`runSimulation` returns that error (upon which `main` ends the process) and no
report.  The table of `printAuctionDetails`, had it been given the same
results, shows the failed auction with its failure status and its two bids. -/
theorem runSimulation_drops_results_on_failure :
    runConcurrentAuctions sampleFailedReturn
      = (none, some (GoError.wrapped "error running auctions" GoError.DeadlineExceeded)) ∧
    runSimulation sampleConfig sampleFailedReturn
      = Except.error (GoError.wrapped "auction execution failed"
          (GoError.wrapped "error running auctions" GoError.DeadlineExceeded)) ∧
    (¬ ∃ report, runSimulation sampleConfig sampleFailedReturn = Except.ok report) ∧
    printAuctionDetails sampleFailedReturn.1
      = [{ AuctionID := "auction-1", Bids := 0, Winner := none, Status := "Success" },
         { AuctionID := "auction-2", Bids := 2, Winner := none,
           Status := "Error: context deadline exceeded" }] := by
  refine ⟨rfl, rfl, ?_, ?_⟩
  · rintro ⟨report, h⟩
    rw [show sampleFailedReturn = (sampleFailedReturn.1, some GoError.DeadlineExceeded) from rfl,
      runSimulation_error] at h
    cases h
  · decide

/-- C9, as amended.  A failure signal from the orchestrator aborts the run:
whatever the results that come with it, `runConcurrentAuctions` returns the
wrapped error and no results, and `runSimulation` returns that error and hands
nothing to reporting.  Without a failure signal `runSimulation` hands every
result to reporting: the results are saved as returned, and the table has one
line per result, in order, with the identity of the auction, its bid count and
an explicit status, `Success` for a result without a failure and the text of
the failure for a result that carries one.  In this program the orchestrator
never returns a failure signal, because no runner records a failure on its
result: under every schedule in which each runner completes once, the call of
`RunAllAuctions` returns one result per auction and no error, and
`runSimulation` reports every auction, in order, with its identity, its bid
count and the status `Success`. -/
theorem runSimulation_reports_unless_failure (cfg : Config) (o : Orchestrator) (now : Time)
    (env : RunEnv)
    (hperm : env.completion.Perm (List.range o.auctionManager.GetAuctions.length)) :
    (∀ (results : List AuctionResult) (err : GoError),
      runConcurrentAuctions (results, some err)
        = (none, some (GoError.wrapped "error running auctions" err)) ∧
      runSimulation cfg (results, some err)
        = Except.error (GoError.wrapped "auction execution failed"
            (GoError.wrapped "error running auctions" err))) ∧
    (∀ results : List AuctionResult,
      ∃ report, runSimulation cfg (results, none) = Except.ok report ∧
        report.saved = results ∧ report.details.length = results.length ∧
        ∀ (i : Nat) (r : AuctionResult), results[i]? = some r →
          ∃ row, report.details[i]? = some row ∧ row.AuctionID = r.AuctionID ∧
            row.Bids = r.TotalBids ∧ (r.Error = none → row.Status = "Success") ∧
            ∀ e, r.Error = some e → row.Status = "Error: " ++ e.Error) ∧
    ∃ results report,
      o.RunAllAuctions Background now env = some (results.map some, none) ∧
      runSimulationWith cfg o now env = some (Except.ok report) ∧
      report.saved = results ∧ results.length = o.auctionManager.GetAuctions.length ∧
      report.details.length = o.auctionManager.GetAuctions.length ∧
      ∀ (i : Nat) (a : Auction), o.auctionManager.GetAuctions[i]? = some a →
        ∃ r row, results[i]? = some r ∧ r.AuctionID = a.ID ∧ r.Error = none ∧
          report.details[i]? = some row ∧ row.AuctionID = a.ID ∧ row.Bids = r.TotalBids ∧
          row.Status = "Success" := by
  refine ⟨fun results err => ⟨rfl, rfl⟩, ?_, ?_⟩
  · intro results
    refine ⟨_, rfl, rfl, ?_, ?_⟩
    · simp [printAuctionDetails]
    · intro i r hr
      exact printAuctionDetails_row results i r hr
  · obtain ⟨rs, hrun, hlen, hslot⟩ := RunAllAuctions_error_nil o Background now env hperm
    obtain ⟨report, hreport, hsaved, hdetails⟩ := runSimulation_ok cfg rs
    refine ⟨rs, report, hrun, ?_, hsaved, hlen, ?_, ?_⟩
    · simp only [runSimulationWith, hrun, derefAll_map_some, hreport]
    · rw [hdetails]
      simp [printAuctionDetails, hlen]
    · intro i a ha
      obtain ⟨r, hr, hid, he⟩ := hslot i a ha
      obtain ⟨row, hrow, hrid, hbids, hok, _⟩ := printAuctionDetails_row rs i r hr
      rw [← hdetails] at hrow
      exact ⟨r, row, hr, hid, he, hrow, by rw [hrid, hid], hbids, hok he⟩

/-- Three auctions whose runners complete in the order 2, 0, 1. -/
theorem runSimulation_reports_unless_failure_witness :
    sampleRunEnv.completion.Perm
      (List.range (sampleOrchestrator 1 sampleAuctions).auctionManager.GetAuctions.length) ∧
    ∃ results report,
      (sampleOrchestrator 1 sampleAuctions).RunAllAuctions Background 0 sampleRunEnv
        = some (results.map some, none) ∧
      runSimulationWith sampleConfig (sampleOrchestrator 1 sampleAuctions) 0 sampleRunEnv
        = some (Except.ok report) ∧
      report.saved = results ∧
      results.length = (sampleOrchestrator 1 sampleAuctions).auctionManager.GetAuctions.length ∧
      report.details.length
        = (sampleOrchestrator 1 sampleAuctions).auctionManager.GetAuctions.length ∧
      ∀ (i : Nat) (a : Auction),
        (sampleOrchestrator 1 sampleAuctions).auctionManager.GetAuctions[i]? = some a →
        ∃ r row, results[i]? = some r ∧ r.AuctionID = a.ID ∧ r.Error = none ∧
          report.details[i]? = some row ∧ row.AuctionID = a.ID ∧ row.Bids = r.TotalBids ∧
          row.Status = "Success" :=
  ⟨by decide,
   (runSimulation_reports_unless_failure sampleConfig (sampleOrchestrator 1 sampleAuctions) 0
     sampleRunEnv (by decide)).2.2⟩

/-! ## The ledger -/

/-- C14. The ledger is append-only.  `AddBid` changes nothing of the auction
but the ledger, which becomes one element longer: its last element is the new
bid and its earlier elements are the previous ledger, unchanged and in the
same order.  Hence a sequence of `AddBid` leaves the prior ledger followed by
the bids added, in the order of arrival, and that is what `collectBids` leaves
whenever it returns. -/
theorem AddBid_append_only (p : Processor) (bid : Bid) :
    (p.AddBid bid).auction = { p.auction with Bids := p.auction.Bids ++ [bid] } ∧
    (p.AddBid bid).auction.Bids.length = p.auction.Bids.length + 1 ∧
    (p.AddBid bid).auction.Bids.getLast? = some bid ∧
    (∀ i : Nat, i < p.auction.Bids.length →
      (p.AddBid bid).auction.Bids[i]? = p.auction.Bids[i]?) ∧
    (∀ arriving : List Bid,
      (arriving.foldl Processor.AddBid p).auction.Bids = p.auction.Bids ++ arriving) ∧
    (∀ (o : Orchestrator) (ctx : Context) (auct : Auction) (now : Time) (env : CollectEnv)
        (p1 : Processor) (t : Time),
      o.collectBids ctx p auct now env = some (p1, t) →
      ∃ arriving : List Bid, p1.auction.Bids = p.auction.Bids ++ arriving ∧
        p1.auction = { p.auction with Bids := p.auction.Bids ++ arriving }) := by
  refine ⟨rfl, by simp [Processor.AddBid], by simp [Processor.AddBid], ?_, ?_, ?_⟩
  · intro i hi
    simp [Processor.AddBid, List.getElem?_append_left hi]
  · intro arriving
    rw [foldl_AddBid]
  · intro o ctx auct now env p1 t h
    unfold Orchestrator.collectBids at h
    dsimp only at h
    split at h
    · simp at h
    · rename_i outs _
      simp only [Option.some.injEq, Prod.mk.injEq] at h
      refine ⟨delivered outs env.order, ?_, ?_⟩
      · rw [← h.1, foldl_AddBid]
      · rw [← h.1, foldl_AddBid]

/-- Adding a bid of 30.00 to the ledger 10.00, 25.50, 25.50 gives a ledger of
four bids whose last is the new one and whose first three are as before. -/
theorem AddBid_append_only_witness :
    ((NewProcessor (sampleAuction 0 sampleLedger)).AddBid (sampleBid "bidder-4" 30)).auction.Bids
      = sampleLedger ++ [sampleBid "bidder-4" 30] ∧
    ((NewProcessor (sampleAuction 0 sampleLedger)).AddBid
      (sampleBid "bidder-4" 30)).auction.Bids.length = sampleLedger.length + 1 ∧
    ((NewProcessor (sampleAuction 0 sampleLedger)).AddBid
      (sampleBid "bidder-4" 30)).auction.Bids.getLast? = some (sampleBid "bidder-4" 30) ∧
    ((NewProcessor (sampleAuction 0 sampleLedger)).AddBid
      (sampleBid "bidder-4" 30)).auction.Bids[1]? = sampleLedger[1]? :=
  ⟨congrArg Auction.Bids
     (AddBid_append_only (NewProcessor (sampleAuction 0 sampleLedger))
       (sampleBid "bidder-4" 30)).1,
   (AddBid_append_only (NewProcessor (sampleAuction 0 sampleLedger))
     (sampleBid "bidder-4" 30)).2.1,
   (AddBid_append_only (NewProcessor (sampleAuction 0 sampleLedger))
     (sampleBid "bidder-4" 30)).2.2.1,
   (AddBid_append_only (NewProcessor (sampleAuction 0 sampleLedger))
     (sampleBid "bidder-4" 30)).2.2.2.1 1 (by decide)⟩

/-! ## Random helpers -/

/-- Subtracting and adding back in `int64` arithmetic returns a value that
fits an `int64`. -/
theorem wrapInt64_sub_add (a b : Int) (h1 : 0 < b) (h2 : b ≤ 9223372036854775807) :
    wrapInt64 (wrapInt64 (b - a) + a) = b := by
  have e1 : wrapInt64 (b - a) + a
      = (b + 9223372036854775808) + 18446744073709551616
          * (-((b - a + 9223372036854775808) / 18446744073709551616))
        - 9223372036854775808 := by
    simp only [wrapInt64]
    have := Int.emod_add_ediv (b - a + 9223372036854775808) 18446744073709551616
    omega
  rw [e1]
  simp only [wrapInt64]
  rw [Int.sub_add_cancel, Int.add_mul_emod_self_left,
    Int.emod_eq_of_lt (by omega) (by omega)]
  omega

/-- For a maximum that is a positive `int64`, the argument of `rand.Int63n`
in `RandomDuration` is the maximum itself, whatever the minimum: the result is
the draw modulo `max`, between 0 and `max`. -/
theorem RandomDuration_range (min max : Duration) (v : Int) (hpos : 0 < max)
    (hfit : max ≤ maxDuration) :
    RandomDuration min max v = some (v % max) ∧ 0 ≤ v % max ∧ v % max < max := by
  have harg : wrapInt64 (wrapInt64 (max - min) + min) = max :=
    wrapInt64_sub_add min max hpos hfit
  refine ⟨?_, Int.emod_nonneg _ (ne_of_gt hpos), Int.emod_lt_of_pos _ hpos⟩
  unfold RandomDuration Int63n
  rw [harg, if_neg (not_le.2 hpos)]

/-- C15, the behaviour of the code where the claim fails.  For `min = 5` and
`max = 10` and a random source that yields 0, `RandomDuration` returns 0, which
is less than `min`; `RandomInt`, on the same input, returns `min`. -/
theorem RandomDuration_below_min :
    (5 : Duration) ≤ 10 ∧ (0 : Duration) < 10 ∧
    RandomDuration 5 10 0 = some 0 ∧ ¬ ((5 : Duration) ≤ 0) ∧
    RandomInt 5 10 0 = some 5 := by
  decide

/-! ## Validation of the environment -/

/-- The check of `validateEnvironment` passes exactly when the version string
is not lexicographically below `go1.25` and the two limits are valid. -/
theorem validateEnvironment_eq_none (version : String) (cfg : Config) :
    validateEnvironment version cfg = none ↔
      ¬ version.toList < "go1.25".toList ∧ 1 ≤ cfg.ResourceLimits.MaxVCPUs ∧
        100 ≤ cfg.ResourceLimits.MaxMemoryMB := by
  have hlt : version < "go1.25" ↔ version.toList < "go1.25".toList :=
    String.lt_iff_toList_lt
  rw [← hlt]
  unfold validateEnvironment
  by_cases h1 : version < "go1.25"
  · simp [h1]
  · by_cases h2 : cfg.ResourceLimits.MaxVCPUs < 1
    · simp [h1, h2]
    · by_cases h3 : cfg.ResourceLimits.MaxMemoryMB < 100
      · simp [h1, h2, h3]
      · simp only [h1, h2, h3, if_false, not_false_eq_true, true_and, true_iff]
        exact ⟨not_lt.1 h2, not_lt.1 h3⟩

/-- C17, the behaviour of the code where the claim fails.  With valid CPU and
memory limits, `validateEnvironment` accepts the versions `go1.3` and `go1.9`,
which are older than 1.25, and rejects `go1.100`, which is later: the version
strings are compared character by character. -/
theorem validateEnvironment_lexicographic :
    1 ≤ sampleConfig.ResourceLimits.MaxVCPUs ∧ 100 ≤ sampleConfig.ResourceLimits.MaxMemoryMB ∧
    validateEnvironment "go1.3" sampleConfig = none ∧
    validateEnvironment "go1.9" sampleConfig = none ∧
    validateEnvironment "go1.100" sampleConfig
      = some (GoError.other "requires Go 1.25 or later, current: go1.100") ∧
    validateEnvironment "go1.25" sampleConfig = none ∧
    validateEnvironment "go1.24" sampleConfig
      = some (GoError.other "requires Go 1.25 or later, current: go1.24") := by
  refine ⟨by decide, by decide, ?_, ?_, ?_, ?_, ?_⟩
  · rw [validateEnvironment_eq_none]
    decide
  · rw [validateEnvironment_eq_none]
    decide
  · have h : "go1.100" < "go1.25" := by
      rw [String.lt_iff_toList_lt]
      decide
    simp [validateEnvironment, h]
  · rw [validateEnvironment_eq_none]
    decide
  · have h : "go1.24" < "go1.25" := by
      rw [String.lt_iff_toList_lt]
      decide
    simp [validateEnvironment, h]

/-! ## The bid evaluator: decision and amount -/

/-- What `EvaluateBid` returns once the latency wait has completed at instant
`t`: no response and no error when the decision draw exceeds the
bid-probability, a response otherwise. -/
theorem EvaluateBid_after_wait (s : Simulator) (ctx : Context) (request : BidRequest)
    (now : Time) (env : EvalEnv) (t : Time) (hlive : ctx.Err now = none)
    (hsel : selectTimed now ctx.doneAt (now + wrapInt64 (s.bidder.SpeedMS * Millisecond))
      env.pick = (false, t)) :
    s.EvaluateBid ctx request now env
      = if env.decision > s.bidder.BidChance then
          { response := none, err := none, finish := t, draws := 1 }
        else
          { response := some
              { BidderID := s.bidder.ID, AuctionID := request.AuctionID,
                Amount := f64Div (mathRound (f64Mul (s.bidAmount env) 100)) 100,
                Timestamp := t },
            err := none, finish := t, draws := 2 } := by
  simp [Simulator.EvaluateBid, hlive, hsel]

/-- After the wait a bid is produced exactly when the decision draw is at most
the bid-probability; a failed draw gives no bid and no error; a participant
with bid-probability 1 bids for every draw below 1; a participant with
bid-probability 0 bids exactly for the draw 0. -/
theorem EvaluateBid_bids_iff (s : Simulator) (ctx : Context) (request : BidRequest)
    (now : Time) (env : EvalEnv) (t : Time) (hlive : ctx.Err now = none)
    (hsel : selectTimed now ctx.doneAt (now + wrapInt64 (s.bidder.SpeedMS * Millisecond))
      env.pick = (false, t)) :
    ((s.EvaluateBid ctx request now env).response ≠ none ↔
      env.decision ≤ s.bidder.BidChance) ∧
    (s.EvaluateBid ctx request now env).err = none ∧
    (s.bidder.BidChance = 1 → env.decision < 1 →
      (s.EvaluateBid ctx request now env).response ≠ none) ∧
    (s.bidder.BidChance = 0 → 0 ≤ env.decision →
      ((s.EvaluateBid ctx request now env).response ≠ none ↔ env.decision = 0)) := by
  rw [EvaluateBid_after_wait s ctx request now env t hlive hsel]
  by_cases h : env.decision > s.bidder.BidChance
  · simp only [h, if_true]
    refine ⟨by simp [not_le.2 h], trivial, ?_, ?_⟩
    · intro h1 hd
      rw [h1] at h
      exact absurd hd (not_lt.2 (le_of_lt h))
    · intro h0 _
      rw [h0] at h
      simp [ne_of_gt h]
  · simp only [h, if_false]
    refine ⟨by simp [not_lt.1 h], trivial, ?_, ?_⟩
    · intro _ _
      simp
    · intro h0 hnn
      rw [h0] at h
      simp [le_antisymm (not_lt.1 h) hnn]

/-- C11, the behaviour of the code where the claim fails.  A participant with
bid-probability 0, whose wait completes and whose decision draw is 0, gets a
bid: the code declines only when the draw is strictly greater than the
bid-probability.  `RandomChance`, for the same probability and draw, answers
false. -/
theorem EvaluateBid_zero_chance_bids :
    (NewSimulator (sampleBidder "bidder-1" 0 10)).EvaluateBid sampleLiveContext sampleRequest 0
        { pick := false, decision := 0, variation := 1 / 2 }
      = { response := some { BidderID := "bidder-1", AuctionID := "auction-1", Amount := 10,
                             Timestamp := 5000000 },
          err := none, finish := 5000000, draws := 2 } ∧
    RandomChance 0 0 = false := by
  obtain ⟨h0, _, h10, h1000, _, _⟩ := f64_sample_values
  constructor
  · norm_num [Simulator.EvaluateBid, Simulator.bidAmount, Simulator.variation, f64Add, f64Sub,
      f64Mul, f64Div, h0, h10, h1000, NewSimulator, sampleBidder, sampleLiveContext,
      sampleRequest, WithTimeout, Background, Context.Err, selectTimed, wrapInt64, Millisecond,
      mathRound]
  · simp [RandomChance]

/-- Rounding a non-negative number gives an integer at distance at most 1/2. -/
theorem mathRound_of_nonneg (x : ℚ) (hx : 0 ≤ x) :
    mathRound x = ((Int.floor (x + 1 / 2) : Int) : ℚ) ∧ |mathRound x - x| ≤ 1 / 2 := by
  have hdef : mathRound x = ((Int.floor (x + 1 / 2) : Int) : ℚ) := by
    unfold mathRound
    rw [if_pos hx]
  refine ⟨hdef, ?_⟩
  rw [hdef, abs_le]
  have h1 := Int.floor_le (x + 1 / 2)
  have h2 := Int.lt_floor_add_one (x + 1 / 2)
  constructor <;> linarith

/-- A response of `EvaluateBid` carries the identity of the participant and of
the auction of the request, and the amount computed from `bidAmount`. -/
theorem EvaluateBid_response (s : Simulator) (ctx : Context) (request : BidRequest)
    (now : Time) (env : EvalEnv) (resp : BidResponse)
    (h : (s.EvaluateBid ctx request now env).response = some resp) :
    resp.BidderID = s.bidder.ID ∧ resp.AuctionID = request.AuctionID ∧
    resp.Amount = f64Div (mathRound (f64Mul (s.bidAmount env) 100)) 100 ∧
    (s.EvaluateBid ctx request now env).err = none := by
  unfold Simulator.EvaluateBid at h ⊢
  cases herr : ctx.Err now with
  | some e => simp [herr] at h
  | none =>
    simp only [herr] at h ⊢
    cases hsel : selectTimed now ctx.doneAt (now + wrapInt64 (s.bidder.SpeedMS * Millisecond))
        env.pick with
    | mk c t =>
      simp only [hsel] at h ⊢
      cases c with
      | true => simp at h
      | false =>
        by_cases hdec : env.decision > s.bidder.BidChance
        · simp [hdec] at h
        · simp only [hdec, if_false, Option.some.injEq] at h ⊢
          subst h
          exact ⟨rfl, rfl, rfl, trivial⟩

/-- The variation of the amount lies within half the bid-range on either
side, when half the bid-range is a `float64` value. -/
theorem variation_range (s : Simulator) (env : EvalEnv) (hw : 0 ≤ s.bidder.BidRange)
    (hhalf : IsFloat64 (s.bidder.BidRange / 2)) (hu0 : 0 ≤ env.variation)
    (hu1 : env.variation < 1) :
    -(s.bidder.BidRange / 2) ≤ s.variation env ∧ s.variation env ≤ s.bidder.BidRange / 2 := by
  have hh : IsFloat64 (1 / 2 : ℚ) :=
    ⟨1, -1, by norm_num, by norm_num, by norm_num, by norm_num⟩
  have h1 : -(1 / 2 : ℚ) ≤ f64Sub env.variation (1 / 2) :=
    le_f64 _ _ hh.neg (by linarith)
  have h2 : f64Sub env.variation (1 / 2) ≤ 1 / 2 := f64_le _ _ hh (by linarith)
  unfold Simulator.variation f64Mul
  constructor
  · apply le_f64 _ _ hhalf.neg
    nlinarith
  · apply f64_le _ _ hhalf
    nlinarith

/-- From `bidAmount` to the amount of the bid: for `m ≥ 1`, `math.Round` of
the `float64` product `m·100` is an integer `k ≥ 100` within 1/2 of the
product, and the `float64` quotient `k/100` is at least 1 and within
`1/200 + m/2^51` of `m`. -/
theorem hundredths_of_bidAmount (m : ℚ) (hm : 1 ≤ m) :
    ∃ k : Int, 100 ≤ k ∧ mathRound (f64Mul m 100) = (k : ℚ) ∧
      |(k : ℚ) - f64Mul m 100| ≤ 1 / 2 ∧
      1 ≤ f64Div (k : ℚ) 100 ∧
      |f64Div (k : ℚ) 100 - m| ≤ 1 / 200 + m / 2 ^ 51 := by
  have h100 : IsFloat64 (100 : ℚ) := by
    have := isFloat64_intCast 100 (by norm_num)
    simpa using this
  have h1f : IsFloat64 (1 : ℚ) := by
    have := isFloat64_intCast 1 (by norm_num)
    simpa using this
  have hp : (100 : ℚ) ≤ f64Mul m 100 := le_f64 _ _ h100 (by linarith)
  have hp0 : (0 : ℚ) ≤ f64Mul m 100 := by linarith
  obtain ⟨hfloor, hdist⟩ := mathRound_of_nonneg _ hp0
  have hk : (100 : Int) ≤ Int.floor (f64Mul m 100 + 1 / 2) := by
    rw [Int.le_floor]
    push_cast
    linarith
  have hkq : (100 : ℚ) ≤ ((Int.floor (f64Mul m 100 + 1 / 2) : Int) : ℚ) := by
    exact_mod_cast hk
  have hperr : |f64Mul m 100 - m * 100| ≤ |m * 100| / 2 ^ 53 :=
    f64_error_rel (m * 100) (by rw [abs_of_pos (by linarith)]; linarith)
  rw [abs_of_pos (by linarith : (0 : ℚ) < m * 100)] at hperr
  have hq1 : (1 : ℚ) ≤ ((Int.floor (f64Mul m 100 + 1 / 2) : Int) : ℚ) / 100 := by
    rw [le_div_iff₀ (by norm_num : (0 : ℚ) < 100)]
    linarith
  have hqerr : |f64Div ((Int.floor (f64Mul m 100 + 1 / 2) : Int) : ℚ) 100
      - ((Int.floor (f64Mul m 100 + 1 / 2) : Int) : ℚ) / 100|
      ≤ |((Int.floor (f64Mul m 100 + 1 / 2) : Int) : ℚ) / 100| / 2 ^ 53 :=
    f64_error_rel _ (by rw [abs_of_pos (by linarith)]; exact hq1)
  rw [abs_of_pos (by linarith : (0 : ℚ) < ((Int.floor (f64Mul m 100 + 1 / 2) : Int) : ℚ) / 100)]
    at hqerr
  rw [hfloor] at hdist
  refine ⟨Int.floor (f64Mul m 100 + 1 / 2), hk, hfloor, hdist, le_f64 _ _ h1f hq1, ?_⟩
  generalize ((Int.floor (f64Mul m 100 + 1 / 2) : Int) : ℚ) = k at hkq hq1 hqerr hdist
  generalize f64Div k 100 = a at hqerr
  generalize f64Mul m 100 = p at hp hperr hdist
  rw [abs_le] at hperr hqerr hdist ⊢
  obtain ⟨hp1, hp2⟩ := hperr
  obtain ⟨hq2, hq3⟩ := hqerr
  obtain ⟨hd1, hd2⟩ := hdist
  have e53 : (2 : ℚ) ^ 53 = 9007199254740992 := by norm_num
  have e51 : (2 : ℚ) ^ 51 = 2251799813685248 := by norm_num
  rw [e53] at hp1 hp2 hq2 hq3
  rw [e51]
  have hk100 : k / 100 = k * (1 / 100) := by ring
  have hkbound : k ≤ 201 * m := by
    have : m * 100 / 9007199254740992 ≤ m / 2 := by
      rw [div_le_div_iff₀ (by norm_num) (by norm_num)]
      nlinarith
    linarith
  have hq4 : k / 100 / 9007199254740992 ≤ 201 * m / 900719925474099200 := by
    rw [div_div, div_le_div_iff₀ (by norm_num) (by norm_num)]
    nlinarith
  constructor
  · have : a - m = (a - k / 100) + (k - p) / 100 + (p - m * 100) / 100 := by ring
    rw [this]
    have t1 : -(1 / 200 : ℚ) ≤ (k - p) / 100 := by linarith
    have t2 : -(m * 100 / 9007199254740992) / 100 ≤ (p - m * 100) / 100 := by
      apply div_le_div_of_nonneg_right hp1 (by norm_num)
    have t3 : m * 100 / 9007199254740992 / 100 = m / 9007199254740992 := by ring
    have t4 : 201 * m / 900719925474099200 + m / 9007199254740992 ≤ m / 2251799813685248 := by
      have : 201 * m / 900719925474099200 + m / 9007199254740992
          = m * (301 / 900719925474099200) := by ring
      rw [this, div_eq_mul_inv m]
      apply mul_le_mul_of_nonneg_left _ (by linarith)
      norm_num
    have t5 : -(m * 100 / 9007199254740992) / 100 = -(m / 9007199254740992) := by ring
    linarith
  · have : a - m = (a - k / 100) + (k - p) / 100 + (p - m * 100) / 100 := by ring
    rw [this]
    have t1 : (k - p) / 100 ≤ (1 / 200 : ℚ) := by linarith
    have t2 : (p - m * 100) / 100 ≤ m * 100 / 9007199254740992 / 100 := by
      apply div_le_div_of_nonneg_right hp2 (by norm_num)
    have t3 : m * 100 / 9007199254740992 / 100 = m / 9007199254740992 := by ring
    have t4 : 201 * m / 900719925474099200 + m / 9007199254740992 ≤ m / 2251799813685248 := by
      have : 201 * m / 900719925474099200 + m / 9007199254740992
          = m * (301 / 900719925474099200) := by ring
      rw [this, div_eq_mul_inv m]
      apply mul_le_mul_of_nonneg_left _ (by linarith)
      norm_num
    linarith

/-- C12, as amended.  For a participant with base-bid `b` and bid-range
`w ≥ 0` (half of which is a `float64` value, as for every normal `float64`) and
a draw `u` in `[0,1)`, the variation `v = (u − 0.5)·w`, computed in `float64`,
lies in `[−w/2, +w/2]`.  The amount of a bid produced by `EvaluateBid` is the
`float64` quotient `math.Round(m·100)/100`, where `m = max(1.0, b + v)` and
the product is a `float64` product: it is the `float64` value nearest to
`k/100` for an integer `k ≥ 100` within 1/2 of that product, and it lies
within `1/200 + m/2^51` of `m`.  The amount is at least 1, hence not negative,
and the bid carries the identity of the participant and the auction identity
of the request.  The bounds on `b` and `w` keep every intermediate result in
the finite range of `float64`. -/
theorem EvaluateBid_amount (s : Simulator) (ctx : Context) (request : BidRequest) (now : Time)
    (env : EvalEnv) (resp : BidResponse)
    (hresp : (s.EvaluateBid ctx request now env).response = some resp)
    (hw : 0 ≤ s.bidder.BidRange) (hhalf : IsFloat64 (s.bidder.BidRange / 2))
    (hu0 : 0 ≤ env.variation) (hu1 : env.variation < 1)
    (hb : |s.bidder.BaseBid| ≤ 2 ^ 1000) (hw1 : s.bidder.BidRange ≤ 2 ^ 1000) :
    -(s.bidder.BidRange / 2) ≤ s.variation env ∧
    s.variation env ≤ s.bidder.BidRange / 2 ∧
    resp.Amount = f64Div (mathRound (f64Mul (s.bidAmount env) 100)) 100 ∧
    (∃ k : Int, 100 ≤ k ∧ resp.Amount = f64 ((k : ℚ) / 100) ∧
      |(k : ℚ) - f64Mul (s.bidAmount env) 100| ≤ 1 / 2) ∧
    |resp.Amount - s.bidAmount env| ≤ 1 / 200 + s.bidAmount env / 2 ^ 51 ∧
    1 ≤ resp.Amount ∧ 0 ≤ resp.Amount ∧
    resp.BidderID = s.bidder.ID ∧ resp.AuctionID = request.AuctionID := by
  obtain ⟨hid, hauction, hamount, _⟩ := EvaluateBid_response s ctx request now env resp hresp
  obtain ⟨hv1, hv2⟩ := variation_range s env hw hhalf hu0 hu1
  have hm : 1 ≤ s.bidAmount env := by
    unfold Simulator.bidAmount
    exact le_max_left _ _
  obtain ⟨k, hk, hround, hnear, hone, hdist⟩ := hundredths_of_bidAmount (s.bidAmount env) hm
  rw [hround] at hamount
  rw [← hamount] at hone hdist
  exact ⟨hv1, hv2, by rw [hamount, hround], ⟨k, hk, hamount, hnear⟩, hdist, hone,
    by linarith, hid, hauction⟩

/-- The response of `sampleRoundingBidder` to the draws of `sampleEvalEnv`:
the base-bid is a `float64` value, its product with 100 rounds to 5002.5,
`math.Round` gives 5003 and the quotient is the `float64` value nearest to
50.03. -/
theorem EvaluateBid_sampleRounding :
    ((NewSimulator sampleRoundingBidder).EvaluateBid sampleLiveContext sampleRequest 0
        sampleEvalEnv).response = some sampleResponse := by
  obtain ⟨h0, _, _, _, _, _⟩ := f64_sample_values
  have hbase : f64 (7040392854975283 / 140737488355328) = 7040392854975283 / 140737488355328 :=
    f64_of_isFloat64 _
      ⟨7040392854975283, -47, by norm_num, by norm_num, by norm_num, by norm_num⟩
  have hprod : f64 (176009821374382075 / 35184372088832) = 10005 / 2 := by
    have h := f64_eq_of_near (176009821374382075 / 35184372088832) 12 5500306917949440
      (by norm_num) (by norm_num [abs_of_pos]) (by norm_num [abs_of_pos]) (by
        rw [abs_lt]
        constructor <;> norm_num)
    rw [h]
    norm_num
  have hquot : f64 (5003 / 100) = 1760274135604265 / 35184372088832 := by
    have h := f64_eq_of_near (5003 / 100) 5 7041096542417060
      (by norm_num) (by norm_num [abs_of_pos]) (by norm_num [abs_of_pos]) (by
        rw [abs_lt]
        constructor <;> norm_num)
    rw [h]
    norm_num
  norm_num [Simulator.EvaluateBid, Simulator.bidAmount, Simulator.variation, f64Add, f64Sub,
    f64Mul, f64Div, h0, hbase, hprod, hquot, NewSimulator, sampleRoundingBidder,
    sampleLiveContext, sampleRequest, sampleEvalEnv, sampleResponse, WithTimeout, Background,
    Context.Err, selectTimed, wrapInt64, Millisecond, mathRound]

/-- The participant `sampleRoundingBidder` with the draws of `sampleEvalEnv`
satisfies the hypotheses and bids the `float64` value nearest to 50.03. -/
theorem EvaluateBid_amount_witness :
    ((NewSimulator sampleRoundingBidder).EvaluateBid sampleLiveContext sampleRequest 0
        sampleEvalEnv).response = some sampleResponse ∧
    0 ≤ (NewSimulator sampleRoundingBidder).bidder.BidRange ∧
    IsFloat64 ((NewSimulator sampleRoundingBidder).bidder.BidRange / 2) ∧
    0 ≤ sampleEvalEnv.variation ∧ sampleEvalEnv.variation < 1 ∧
    |(NewSimulator sampleRoundingBidder).bidder.BaseBid| ≤ 2 ^ 1000 ∧
    (NewSimulator sampleRoundingBidder).bidder.BidRange ≤ 2 ^ 1000 ∧
    (-((NewSimulator sampleRoundingBidder).bidder.BidRange / 2)
        ≤ (NewSimulator sampleRoundingBidder).variation sampleEvalEnv ∧
      (NewSimulator sampleRoundingBidder).variation sampleEvalEnv
        ≤ (NewSimulator sampleRoundingBidder).bidder.BidRange / 2 ∧
      sampleResponse.Amount = f64Div (mathRound (f64Mul
        ((NewSimulator sampleRoundingBidder).bidAmount sampleEvalEnv) 100)) 100 ∧
      (∃ k : Int, 100 ≤ k ∧ sampleResponse.Amount = f64 ((k : ℚ) / 100) ∧
        |(k : ℚ) - f64Mul ((NewSimulator sampleRoundingBidder).bidAmount sampleEvalEnv) 100|
          ≤ 1 / 2) ∧
      |sampleResponse.Amount - (NewSimulator sampleRoundingBidder).bidAmount sampleEvalEnv|
        ≤ 1 / 200 + (NewSimulator sampleRoundingBidder).bidAmount sampleEvalEnv / 2 ^ 51 ∧
      1 ≤ sampleResponse.Amount ∧ 0 ≤ sampleResponse.Amount ∧
      sampleResponse.BidderID = (NewSimulator sampleRoundingBidder).bidder.ID ∧
      sampleResponse.AuctionID = sampleRequest.AuctionID) := by
  have hw : 0 ≤ (NewSimulator sampleRoundingBidder).bidder.BidRange := by
    norm_num [NewSimulator, sampleRoundingBidder]
  have hhalf : IsFloat64 ((NewSimulator sampleRoundingBidder).bidder.BidRange / 2) :=
    ⟨5, 0, by norm_num, by norm_num, by norm_num,
     by norm_num [NewSimulator, sampleRoundingBidder]⟩
  have hu0 : 0 ≤ sampleEvalEnv.variation := by norm_num [sampleEvalEnv]
  have hu1 : sampleEvalEnv.variation < 1 := by norm_num [sampleEvalEnv]
  have hb : |(NewSimulator sampleRoundingBidder).bidder.BaseBid| ≤ 2 ^ 1000 := by
    norm_num [NewSimulator, sampleRoundingBidder, abs_of_pos]
  have hw1 : (NewSimulator sampleRoundingBidder).bidder.BidRange ≤ 2 ^ 1000 := by
    norm_num [NewSimulator, sampleRoundingBidder]
  exact ⟨EvaluateBid_sampleRounding, hw, hhalf, hu0, hu1, hb, hw1,
    EvaluateBid_amount (NewSimulator sampleRoundingBidder) sampleLiveContext sampleRequest 0
      sampleEvalEnv sampleResponse EvaluateBid_sampleRounding hw hhalf hu0 hu1 hb hw1⟩

/-- C12, where the claim fails.  The participant `sampleRoundingBidder` has
as base-bid the `float64` value 50.02499999999999857…, inside the range of
`createBidder`, and the draw 1/2 makes the variation 0.  The claim gives
`max(1.0, b + v)` rounded to two decimal places, 50.02; `EvaluateBid` returns
the `float64` value nearest to 50.03, which is not a whole number of
hundredths and is farther than 1/200 from `max(1.0, b + v)`. -/
theorem EvaluateBid_amount_not_nearest_hundredth :
    IsFloat64 sampleRoundingBidder.BaseBid ∧
    50 ≤ sampleRoundingBidder.BaseBid ∧ sampleRoundingBidder.BaseBid < 150 ∧
    (sampleEvalEnv.variation - 1 / 2) * sampleRoundingBidder.BidRange = 0 ∧
    ((NewSimulator sampleRoundingBidder).EvaluateBid sampleLiveContext sampleRequest 0
        sampleEvalEnv).response = some sampleResponse ∧
    roundTwoDecimals (max 1 (sampleRoundingBidder.BaseBid
      + (sampleEvalEnv.variation - 1 / 2) * sampleRoundingBidder.BidRange)) = 2501 / 50 ∧
    sampleResponse.Amount ≠ roundTwoDecimals (max 1 (sampleRoundingBidder.BaseBid
      + (sampleEvalEnv.variation - 1 / 2) * sampleRoundingBidder.BidRange)) ∧
    ¬ |sampleResponse.Amount - max 1 (sampleRoundingBidder.BaseBid
      + (sampleEvalEnv.variation - 1 / 2) * sampleRoundingBidder.BidRange)| ≤ 1 / 200 ∧
    ¬ ∃ k : Int, sampleResponse.Amount * 100 = (k : ℚ) := by
  have hfloor : Int.floor ((176009821374382075 : ℚ) / 35184372088832 + 1 / 2) = 5002 := by
    rw [Int.floor_eq_iff]
    constructor <;> norm_num
  have hround : roundTwoDecimals (max 1 (sampleRoundingBidder.BaseBid
      + (sampleEvalEnv.variation - 1 / 2) * sampleRoundingBidder.BidRange)) = 2501 / 50 := by
    have hmax : max (1 : ℚ) (7040392854975283 / 140737488355328)
        = 7040392854975283 / 140737488355328 := max_eq_right (by norm_num)
    have hmul : (7040392854975283 / 140737488355328 : ℚ) * 100
        = 176009821374382075 / 35184372088832 := by norm_num
    have hnn : (0 : ℚ) ≤ 176009821374382075 / 35184372088832 := by norm_num
    simp only [roundTwoDecimals, sampleRoundingBidder, sampleEvalEnv, sub_self, zero_mul,
      add_zero, hmax, hmul, mathRound, if_pos hnn, hfloor]
    norm_num
  refine ⟨⟨7040392854975283, -47, by norm_num, by norm_num, by norm_num,
      by norm_num [sampleRoundingBidder]⟩,
    by norm_num [sampleRoundingBidder], by norm_num [sampleRoundingBidder],
    by norm_num [sampleRoundingBidder, sampleEvalEnv], EvaluateBid_sampleRounding, hround,
    ?_, ?_, ?_⟩
  · rw [hround]
    norm_num [sampleResponse]
  · have hmax : max (1 : ℚ) (7040392854975283 / 140737488355328)
        = 7040392854975283 / 140737488355328 := max_eq_right (by norm_num)
    simp only [sampleRoundingBidder, sampleEvalEnv, sampleResponse, sub_self, zero_mul,
      add_zero, hmax]
    rw [abs_of_pos (by norm_num)]
    norm_num
  · rintro ⟨k, hk⟩
    have h1 : (sampleResponse.Amount * 100).den = 1 := by
      rw [hk]
      exact Rat.den_intCast k
    have h2 : sampleResponse.Amount * 100 = 44006853390106625 / 8796093022208 := by
      norm_num [sampleResponse]
    have h3 : ((44006853390106625 : ℚ) / 8796093022208).den = 8796093022208 := by
      norm_num
    rw [h2, h3] at h1
    norm_num at h1

/-! ## Cancellation at the admission gate -/

/-- A `select` entered when its second case is already ready is left at once;
it takes the first case exactly when that case is ready as well and the
runtime picks it. -/
theorem selectTimed_second_ready (now : Time) (a : Option Time) (d : Time) (pick : Bool)
    (hle : d ≤ now) :
    (selectTimed now a d pick).2 = now ∧
    ((selectTimed now a d pick).1 = true ↔ pick = true ∧ ∃ t, a = some t ∧ t ≤ now) := by
  have hmax : max now d = now := max_eq_left hle
  unfold selectTimed
  cases a with
  | none => simp [hmax]
  | some ta =>
    simp only [hmax]
    by_cases h1 : max now ta < now
    · exact absurd h1 (not_lt.2 (le_max_left _ _))
    · by_cases h2 : now < max now ta
      · have hta : ¬ ta ≤ now := by
          intro hc
          rw [max_eq_left hc] at h2
          exact lt_irrefl _ h2
        simp [h1, h2, hta]
      · have hta : ta ≤ now := by
          by_contra hc
          exact h2 (lt_of_lt_of_le (not_le.1 hc) (le_max_right _ _))
        simp [h1, h2, hta, max_eq_left hta]

/-- The two ways through the permit protocol of a task that stands at its
first `select` while the context of its auction is done.  The step that
abandons is enabled and leaves the number of permits taken as it is.  When a
permit is free the step that acquires is enabled and takes one permit, after
which the return of the evaluator without a bid is enabled and gives the
permit back: the number of permits taken is then what it was before.  Either
way the task has finished. -/
theorem gateStep_cancelled_paths (cap : Nat) (s : GateState) (i : Nat) (task : GateTask)
    (htask : s.tasks[i]? = some task) (hpc : task.pc = TaskPc.acquiring)
    (hexp : task.auction ∈ s.expired) :
    (∃ s1, gateStep cap s (GateAction.abandon i) = some s1 ∧ s1.permits = s.permits ∧
      s1.tasks[i]? = some { task with pc := TaskPc.finished }) ∧
    (s.permits < cap →
      ∃ s1 s2, gateStep cap s (GateAction.acquire i) = some s1 ∧
        s1.permits = s.permits + 1 ∧
        s1.tasks[i]? = some { task with pc := TaskPc.evaluating } ∧
        gateStep cap s1 (GateAction.evalNoBid i) = some s2 ∧ s2.permits = s.permits ∧
        s2.tasks[i]? = some { task with pc := TaskPc.finished }) := by
  constructor
  · refine ⟨{ s with tasks := s.setPc i TaskPc.finished }, ?_, rfl, ?_⟩
    · simp [gateStep, htask, hpc, hexp]
    · simp [GateState.setPc, List.getElem?_modify_eq, htask]
  · intro hfree
    have h1 : ({ s with permits := s.permits + 1, tasks := s.setPc i TaskPc.evaluating } :
        GateState).tasks[i]? = some { task with pc := TaskPc.evaluating } := by
      simp [GateState.setPc, List.getElem?_modify_eq, htask]
    refine ⟨{ s with permits := s.permits + 1, tasks := s.setPc i TaskPc.evaluating },
      { s with permits := s.permits,
               tasks := GateState.setPc
                 { s with permits := s.permits + 1, tasks := s.setPc i TaskPc.evaluating }
                 i TaskPc.finished }, ?_, rfl, h1, ?_, rfl, ?_⟩
    · simp [gateStep, htask, hpc, hfree]
    · simp only [gateStep, List.get?_eq_getElem?, h1]
      simp
    · simp [GateState.setPc, List.getElem?_modify_eq, htask]

/-- C13, as amended.  If the context of the auction is already cancelled when
the task of a participant reaches the `select` that acquires a permit, the
task returns at that instant and contributes no bid.  It takes a permit
exactly when a permit is available at that moment and the runtime picks the
semaphore case, and it invokes the evaluator exactly when it has taken a
permit; otherwise it returns without a permit and without invoking the
evaluator.  The evaluator called at that instant returns no response and the
error of the context, without waiting and without a draw from the random
source.  In the permit protocol the step by which such a task abandons leaves
the number of permits taken unchanged; and when a permit is free, the step by
which it acquires takes one permit and the return of the evaluator without a
bid gives that permit back, so that once the task has returned the number of
permits taken is what it was before. -/
theorem bidTask_cancelled_at_acquire (sim : Simulator) (ctx : Context) (req : BidRequest)
    (start : Time) (env : TaskEnv) (d : Time) (hd : ctx.doneAt = some d)
    (hle : d ≤ start + env.arrive) :
    (∃ out, bidTask sim ctx req start env = some out ∧
      out.bid = none ∧ out.finish = start + env.arrive ∧
      out.evaluated = out.acquired ∧
      (out.acquired = true ↔
        env.pickAcquire = true ∧ ∃ t, env.permitAt = some t ∧ t ≤ start + env.arrive)) ∧
    sim.EvaluateBid ctx req (start + env.arrive) env.eval
      = { response := none, err := some ctx.cause, finish := start + env.arrive, draws := 0 } ∧
    ∀ (cap : Nat) (s : GateState) (i : Nat) (task : GateTask),
      s.tasks[i]? = some task → task.pc = TaskPc.acquiring → task.auction ∈ s.expired →
      (∃ s1, gateStep cap s (GateAction.abandon i) = some s1 ∧ s1.permits = s.permits ∧
        s1.tasks[i]? = some { task with pc := TaskPc.finished }) ∧
      (s.permits < cap →
        ∃ s1 s2, gateStep cap s (GateAction.acquire i) = some s1 ∧
          s1.permits = s.permits + 1 ∧
          s1.tasks[i]? = some { task with pc := TaskPc.evaluating } ∧
          gateStep cap s1 (GateAction.evalNoBid i) = some s2 ∧ s2.permits = s.permits ∧
          s2.tasks[i]? = some { task with pc := TaskPc.finished }) := by
  refine ⟨?_, EvaluateBid_of_done sim ctx req (start + env.arrive) env.eval d hd hle,
    fun cap s i task htask hpc hexp => gateStep_cancelled_paths cap s i task htask hpc hexp⟩
  obtain ⟨hfin, hcase⟩ :=
    selectTimed_second_ready (start + env.arrive) env.permitAt d env.pickAcquire hle
  unfold bidTask
  simp only [select2, hd]
  cases hsel : selectTimed (start + env.arrive) env.permitAt d env.pickAcquire with
  | mk c t =>
    rw [hsel] at hfin hcase
    simp only at hfin hcase
    have ht : d ≤ t := by
      rw [hfin]
      exact hle
    cases c with
    | false =>
      refine ⟨_, rfl, rfl, hfin, rfl, ?_⟩
      simpa using hcase
    | true =>
      simp only [EvaluateBid_of_done sim ctx req t env.eval d hd ht]
      refine ⟨_, rfl, rfl, hfin, rfl, ?_⟩
      simpa using hcase

/-- A cancelled context, a free permit and a runtime that picks the semaphore
case. -/
theorem bidTask_cancelled_at_acquire_witness :
    sampleExpiredContext.doneAt = some 0 ∧ (0 : Time) ≤ 0 + sampleTaskEnv.arrive ∧
    (∃ out, bidTask (NewSimulator sampleWideBidder) sampleExpiredContext sampleRequest 0
        sampleTaskEnv = some out ∧
      out.bid = none ∧ out.finish = 0 + sampleTaskEnv.arrive ∧
      out.evaluated = out.acquired ∧
      (out.acquired = true ↔
        sampleTaskEnv.pickAcquire = true ∧
          ∃ t, sampleTaskEnv.permitAt = some t ∧ t ≤ 0 + sampleTaskEnv.arrive)) ∧
    (NewSimulator sampleWideBidder).EvaluateBid sampleExpiredContext sampleRequest
        (0 + sampleTaskEnv.arrive) sampleTaskEnv.eval
      = { response := none, err := some sampleExpiredContext.cause,
          finish := 0 + sampleTaskEnv.arrive, draws := 0 } ∧
    ∀ (cap : Nat) (s : GateState) (i : Nat) (task : GateTask),
      s.tasks[i]? = some task → task.pc = TaskPc.acquiring → task.auction ∈ s.expired →
      (∃ s1, gateStep cap s (GateAction.abandon i) = some s1 ∧ s1.permits = s.permits ∧
        s1.tasks[i]? = some { task with pc := TaskPc.finished }) ∧
      (s.permits < cap →
        ∃ s1 s2, gateStep cap s (GateAction.acquire i) = some s1 ∧
          s1.permits = s.permits + 1 ∧
          s1.tasks[i]? = some { task with pc := TaskPc.evaluating } ∧
          gateStep cap s1 (GateAction.evalNoBid i) = some s2 ∧ s2.permits = s.permits ∧
          s2.tasks[i]? = some { task with pc := TaskPc.finished }) :=
  ⟨rfl, by decide,
   bidTask_cancelled_at_acquire (NewSimulator sampleWideBidder) sampleExpiredContext
     sampleRequest 0 sampleTaskEnv 0 rfl (by decide)⟩

/-- The permit protocol on a concrete state: a gate of capacity 2 with one
permit taken, and a waiting task of an auction whose deadline has fired.
Abandoning leaves one permit taken; acquiring takes a second permit, and the
return of the evaluator gives it back. -/
theorem gate_cancelled_sample :
    gateRun 2 (gateInit [0, 0]) [GateAction.acquire 0, GateAction.expire 0,
        GateAction.abandon 1]
      = some { permits := 1,
               tasks := [{ auction := 0, pc := TaskPc.evaluating },
                         { auction := 0, pc := TaskPc.finished }],
               expired := [0] } ∧
    gateRun 2 (gateInit [0, 0]) [GateAction.acquire 0, GateAction.expire 0,
        GateAction.acquire 1]
      = some { permits := 2,
               tasks := [{ auction := 0, pc := TaskPc.evaluating },
                         { auction := 0, pc := TaskPc.evaluating }],
               expired := [0] } ∧
    gateRun 2 (gateInit [0, 0]) [GateAction.acquire 0, GateAction.expire 0,
        GateAction.acquire 1, GateAction.evalNoBid 1]
      = some { permits := 1,
               tasks := [{ auction := 0, pc := TaskPc.evaluating },
                         { auction := 0, pc := TaskPc.finished }],
               expired := [0] } := by
  decide

/-- C13, where the claim fails.  The context is cancelled and a permit is
available when the task reaches the `select`; the runtime picks the semaphore
case, and the task takes a permit and invokes the evaluator. -/
theorem bidTask_cancelled_takes_permit :
    sampleExpiredContext.Err (0 + sampleTaskEnv.arrive) = some GoError.DeadlineExceeded ∧
    sampleTaskEnv.permitAt = some 0 ∧
    bidTask (NewSimulator sampleWideBidder) sampleExpiredContext sampleRequest 0 sampleTaskEnv
      = some { bid := none, acquired := true, evaluated := true, finish := 0 } ∧
    ¬ ∃ out, bidTask (NewSimulator sampleWideBidder) sampleExpiredContext sampleRequest 0
        sampleTaskEnv = some out ∧ out.acquired = false ∧ out.evaluated = false := by
  have hrun : bidTask (NewSimulator sampleWideBidder) sampleExpiredContext sampleRequest 0
      sampleTaskEnv = some { bid := none, acquired := true, evaluated := true, finish := 0 } := by
    simp [bidTask, select2, selectTimed, sampleExpiredContext, sampleTaskEnv,
      Simulator.EvaluateBid, Context.Err]
  refine ⟨by simp [sampleExpiredContext, sampleTaskEnv, Context.Err], rfl, hrun, ?_⟩
  rintro ⟨out, hout, hacq, _⟩
  rw [hrun] at hout
  cases hout
  simp at hacq

/-! ## One bid per participant -/

/-- A bid sent by the goroutine of a participant carries the identity of that
participant. -/
theorem bidTask_bid_id (sim : Simulator) (ctx : Context) (req : BidRequest) (start : Time)
    (env : TaskEnv) (out : TaskOutcome) (b : Bid)
    (h : bidTask sim ctx req start env = some out) (hb : out.bid = some b) :
    b.BidderID = sim.bidder.ID := by
  unfold bidTask at h
  split at h
  · simp at h
  · simp only [Option.some.injEq] at h
    subst h
    simp at hb
  · rename_i t _
    dsimp only at h
    split at h
    · rename_i bidResponse _ hresp
      obtain ⟨hid, _⟩ := EvaluateBid_response sim ctx req t env.eval bidResponse hresp
      split at h
      · simp at h
      · simp only [Option.some.injEq] at h
        subst h
        simp only [Option.some.injEq] at hb
        subst hb
        exact hid
      · simp only [Option.some.injEq] at h
        subst h
        simp at hb
    · simp only [Option.some.injEq] at h
      subst h
      simp at hb

/-- The arrival order lists every goroutine exactly once. -/
theorem arrivalOrder_nodup (n : Nat) (order : List Nat) : (arrivalOrder n order).Nodup := by
  unfold arrivalOrder
  refine List.Nodup.append ((List.nodup_dedup order).filter _) ((List.nodup_range n).filter _) ?_
  intro i h1 h2
  rw [List.mem_filter, List.mem_dedup] at h1
  rw [List.mem_filter] at h2
  simp only [decide_eq_true_eq] at h2
  exact h2.2 h1.1

/-- The goroutines of the arrival order are those of the collection. -/
theorem mem_arrivalOrder (n : Nat) (order : List Nat) (i : Nat) :
    i ∈ arrivalOrder n order ↔ i < n := by
  unfold arrivalOrder
  simp only [List.mem_append, List.mem_filter, List.mem_dedup, List.mem_range,
    decide_eq_true_eq]
  constructor
  · rintro (h | h)
    · exact h.2
    · exact h.1
  · intro h
    by_cases hm : i ∈ order
    · exact Or.inl ⟨hm, h⟩
    · exact Or.inr ⟨h, hm⟩

/-- The arrival order is a rearrangement of the positions of the
goroutines. -/
theorem arrivalOrder_perm (n : Nat) (order : List Nat) :
    (arrivalOrder n order).Perm (List.range n) := by
  rw [List.perm_ext_iff_of_nodup (arrivalOrder_nodup n order) (List.nodup_range n)]
  intro i
  rw [mem_arrivalOrder, List.mem_range]

/-- Every order of the goroutines is an arrival order: a schedule that lists
each goroutine once is read as it stands. -/
theorem arrivalOrder_of_perm (n : Nat) (order : List Nat)
    (hperm : order.Perm (List.range n)) : arrivalOrder n order = order := by
  have hnodup : order.Nodup := hperm.nodup_iff.2 (List.nodup_range n)
  have hmem : ∀ i, i ∈ order ↔ i < n := fun i => by rw [hperm.mem_iff, List.mem_range]
  unfold arrivalOrder
  rw [hnodup.dedup]
  have h1 : (order.filter fun i => decide (i < n)) = order := by
    rw [List.filter_eq_self]
    intro i hi
    simpa using (hmem i).1 hi
  have h2 : ((List.range n).filter fun i => decide (i ∉ order)) = [] := by
    rw [List.filter_eq_nil_iff]
    intro i hi
    rw [List.mem_range] at hi
    simpa using (hmem i).2 hi
  rw [h1, h2, List.append_nil]

/-- Reading the bids of the outcomes by position gives the bids sent, in the
order of the goroutines. -/
theorem filterMap_range_bids (outs : List TaskOutcome) :
    (List.range outs.length).filterMap (fun i => (outs.get? i).bind fun out => out.bid)
      = outs.filterMap fun out => out.bid := by
  induction outs with
  | nil => rfl
  | cons o rest ih =>
    rw [List.length_cons, List.range_succ_eq_map, List.filterMap_cons, List.filterMap_map]
    have hcomp : ((fun i => ((o :: rest).get? i).bind fun out => out.bid) ∘ Nat.succ)
        = fun i => (rest.get? i).bind fun out => out.bid := by
      funext i
      simp
    rw [hcomp, ih, List.filterMap_cons]
    simp

/-- Every bid sent reaches the ledger exactly once: the bids delivered are a
rearrangement of the bids sent. -/
theorem delivered_perm (outs : List TaskOutcome) (order : List Nat) :
    (delivered outs order).Perm (outs.filterMap fun out => out.bid) := by
  unfold delivered
  rw [← filterMap_range_bids outs]
  exact (arrivalOrder_perm outs.length order).filterMap _

/-- The bids delivered correspond, one to one and in order, to the goroutines
of the arrival order that have sent a bid. -/
theorem delivered_forall₂ (outs : List TaskOutcome) (order : List Nat) :
    List.Forall₂ (fun b i => ∃ out, outs[i]? = some out ∧ out.bid = some b)
      (delivered outs order)
      ((arrivalOrder outs.length order).filter
        fun i => ((outs.get? i).bind fun out => out.bid).isSome) := by
  unfold delivered
  generalize arrivalOrder outs.length order = arrival
  induction arrival with
  | nil => simp
  | cons i rest ih =>
    cases hf : (outs.get? i).bind fun out => out.bid with
    | none =>
      simp only [List.filterMap_cons, hf, List.filter_cons, Option.isSome_none,
        Bool.false_eq_true, if_false]
      exact ih
    | some b =>
      simp only [List.filterMap_cons, hf, List.filter_cons, Option.isSome_some, if_true]
      refine List.Forall₂.cons ?_ ih
      simp only [List.get?_eq_getElem?, Option.bind_eq_some] at hf
      exact hf

/-- The goroutine at position `i` of a collection belongs to the participant
at position `i`, and a bid it sends carries the identity of that
participant. -/
theorem delivered_origin (o : Orchestrator) (ctx : Context) (req : BidRequest) (start : Time)
    (task : Nat → TaskEnv) (outs : List TaskOutcome)
    (houts : runTasks ctx req start task 0 o.bidderManager.GetBidderSimulators = some outs)
    (i : Nat) (out : TaskOutcome) (b : Bid) (hi : outs[i]? = some out) (hb : out.bid = some b) :
    ∃ bidder, o.bidderManager.GetBidders[i]? = some bidder ∧ b.BidderID = bidder.ID := by
  obtain ⟨sim, hsim, htask⟩ := runTasks_outcome ctx req start task _ 0 outs houts i out hi
  have hid := bidTask_bid_id sim ctx req start _ out b htask hb
  unfold bidder.Manager.GetBidderSimulators at hsim
  rw [List.getElem?_map] at hsim
  cases hbidder : o.bidderManager.GetBidders[i]? with
  | none => simp [hbidder] at hsim
  | some bidder =>
    simp only [hbidder, Option.map_some', Option.some.injEq] at hsim
    subst hsim
    exact ⟨bidder, rfl, hid⟩

/-- C16. For an auction that starts with an empty ledger and for every
schedule, `runSingleAuction` returns with a ledger that is a rearrangement of
the bids sent by the goroutines, one goroutine per participant and at most one
bid per goroutine.  The bids of the ledger come, one to one, from distinct
participants of the list asked to bid: each participant contributes at most
one bid, the bid count is at most the number of participants, and every bid in
the ledger carries the identity of a participant that was asked. -/
theorem runSingleAuction_one_bid_per_participant (o : Orchestrator) (ctx : Context)
    (auct : Auction) (auctionIndex : Nat) (now : Time) (env : CollectEnv)
    (hfresh : auct.Bids = []) :
    ∃ r a, o.runSingleAuction ctx auct auctionIndex now env = some (r, a) ∧
      (∃ outs : List TaskOutcome, outs.length = o.bidderManager.GetBidders.length ∧
        a.Bids.Perm (outs.filterMap fun out => out.bid)) ∧
      (∃ asked : List Nat, asked.Nodup ∧
        List.Forall₂
          (fun b i => ∃ bidder, o.bidderManager.GetBidders[i]? = some bidder ∧
            b.BidderID = bidder.ID)
          a.Bids asked) ∧
      r.TotalBids ≤ (o.bidderManager.GetBidders.length : Int) ∧
      (∀ b ∈ a.Bids, ∃ bidder ∈ o.bidderManager.GetBidders, b.BidderID = bidder.ID) := by
  obtain ⟨outs, r, a, houts, hrun, hbids, _, _, _, htotal, _⟩ :=
    runSingleAuction_spec o ctx auct auctionIndex now env
  rw [hfresh, List.nil_append] at hbids
  have houtslen : outs.length = o.bidderManager.GetBidders.length := by
    obtain ⟨d, hd, _⟩ := WithTimeout_doneAt ctx now auct.Timeout
    obtain ⟨outs1, houts1, hlen1⟩ := runTasks_returns (WithTimeout ctx now auct.Timeout)
      { AuctionID := auct.ID, Attributes := auct.Attributes.map fun attr => attr.Value,
        Timeout := auct.Timeout, Timestamp := now }
      now env.task d hd o.bidderManager.GetBidderSimulators 0
    rw [houts] at houts1
    cases houts1
    rw [hlen1]
    simp [bidder.Manager.GetBidderSimulators]
  have hforall := delivered_forall₂ outs env.order
  rw [← hbids] at hforall
  have hasked : List.Forall₂
      (fun b i => ∃ bidder, o.bidderManager.GetBidders[i]? = some bidder ∧
        b.BidderID = bidder.ID)
      a.Bids ((arrivalOrder outs.length env.order).filter
        fun i => ((outs.get? i).bind fun out => out.bid).isSome) := by
    refine hforall.imp ?_
    rintro b i ⟨out, hi, hb⟩
    exact delivered_origin o _ _ now env.task outs houts i out b hi hb
  have hnodup : ((arrivalOrder outs.length env.order).filter
      fun i => ((outs.get? i).bind fun out => out.bid).isSome).Nodup :=
    (arrivalOrder_nodup outs.length env.order).filter _
  have hperm : a.Bids.Perm (outs.filterMap fun out => out.bid) := by
    rw [hbids]
    exact delivered_perm outs env.order
  have hlen : a.Bids.length ≤ o.bidderManager.GetBidders.length := by
    rw [hperm.length_eq, ← houtslen]
    exact List.length_filterMap_le _ _
  refine ⟨r, a, hrun, ⟨outs, houtslen, hperm⟩, ⟨_, hnodup, hasked⟩, ?_, ?_⟩
  · rw [htotal]
    exact_mod_cast hlen
  · intro b hb
    rw [hbids] at hb
    unfold delivered at hb
    rw [List.mem_filterMap] at hb
    obtain ⟨i, _, hi⟩ := hb
    simp only [List.get?_eq_getElem?, Option.bind_eq_some] at hi
    obtain ⟨out, hout, hbid⟩ := hi
    obtain ⟨bidder, hbidder, hid⟩ :=
      delivered_origin o _ _ now env.task outs houts i out b hout hbid
    exact ⟨bidder, List.getElem?_mem hbidder, hid⟩

/-- The scenario with three participants and an auction that starts with an
empty ledger. -/
theorem runSingleAuction_one_bid_per_participant_witness :
    (sampleAuction 2000000000 []).Bids = [] ∧
    ∃ r a, (sampleOrchestrator 1 []).runSingleAuction Background (sampleAuction 2000000000 []) 0 0
        sampleCollectEnv = some (r, a) ∧
      (∃ outs : List TaskOutcome,
        outs.length = (sampleOrchestrator 1 []).bidderManager.GetBidders.length ∧
        a.Bids.Perm (outs.filterMap fun out => out.bid)) ∧
      (∃ asked : List Nat, asked.Nodup ∧
        List.Forall₂
          (fun b i => ∃ bidder,
            (sampleOrchestrator 1 []).bidderManager.GetBidders[i]? = some bidder ∧
            b.BidderID = bidder.ID)
          a.Bids asked) ∧
      r.TotalBids ≤ ((sampleOrchestrator 1 []).bidderManager.GetBidders.length : Int) ∧
      (∀ b ∈ a.Bids, ∃ bidder ∈ (sampleOrchestrator 1 []).bidderManager.GetBidders,
        b.BidderID = bidder.ID) :=
  ⟨rfl,
   runSingleAuction_one_bid_per_participant (sampleOrchestrator 1 []) Background
     (sampleAuction 2000000000 []) 0 0 sampleCollectEnv rfl⟩

/-- Arrival orders of three goroutines: a schedule that names the first
goroutine four times, a schedule that lists each goroutine once, an empty
schedule, and a schedule that names a goroutine that does not exist.  Each
goroutine occurs once in every one of them. -/
theorem delivered_repeated_order :
    arrivalOrder 3 [0, 0, 0, 0] = [0, 1, 2] ∧ arrivalOrder 3 [2, 0, 1] = [2, 0, 1] ∧
    arrivalOrder 3 [] = [0, 1, 2] ∧ arrivalOrder 3 [1, 7] = [1, 0, 2] := by
  decide

end AuctionSim
